import Mathlib

/-
  Verification of the EDL-to-argument-vector compiler of the open-rec
  screen recorder (source: src/src-tauri/src/export/mod.rs and
  src/src-tauri/src/project/mod.rs), over a rational-number shallow
  embedding of the Rust source.

  Modelling conventions:
  * every `f64` value is embedded as a `ℚ` (each finite f64 is a rational,
    and every arithmetic step the source performs on the values relevant
    to the claims - comparisons, +, -, *, division by powers of two -
    is exact in f64 on the concrete inputs used below);
  * `Vec<String>` building becomes `List String` concatenation in push
    order;
  * the two external probes (`Path::exists`, ffprobe audio detection) are
    collaborator inputs and are passed in as a `ProbeEnv`;
  * `cfg!(target_os = "macos")` is a compile-time constant and becomes an
    explicit `macos : Bool` parameter;
  * Rust's `{:.N}` float formatting rounds the value half-to-even at N
    decimal digits, modelled by `roundHalfEven`/`formatFixed`; Rust's `{}`
    Display of an f64 is modelled by `displayQ` (decimal expansion of the
    rational; no claim below depends on its exact digits, only on the
    fact that it consists of a sign, digits and a decimal point).
-/

set_option maxRecDepth 4000

/-! ## Decimal rendering helpers -/

/-- Decimal digit character: 0 ≤ d ≤ 9 maps to the chars 0-9. -/
def digitChar (d : ℕ) : Char := Char.ofNat (48 + d)

/-- Digit list of a natural number, fuel-driven (fuel ≥ 1 suffices for
one digit, and `n+1` fuel always suffices). -/
def natDigitsAux : ℕ → ℕ → List Char
  | 0, _ => []
  | fuel + 1, n => if n < 10 then [digitChar n] else natDigitsAux fuel (n / 10) ++ [digitChar (n % 10)]

/-- Decimal string of a natural number (model of Rust `{}` on unsigned ints). -/
def natToString (n : ℕ) : String := String.mk (natDigitsAux (n + 1) n)

/-- Decimal string of an integer (model of Rust `{}` on i64). -/
def intToString (i : ℤ) : String :=
  if i < 0 then "-" ++ natToString i.natAbs else natToString i.natAbs

/-- Pad a digit list with leading zeros to width `w`. -/
def padZeros (w : ℕ) (l : List Char) : List Char :=
  List.replicate (w - l.length) '0' ++ l

/-- Round a rational to the nearest integer, ties to even - the rounding
Rust uses when formatting an f64 with an explicit precision. -/
def roundHalfEven (x : ℚ) : ℤ :=
  if x - (x.floor : ℚ) < 1/2 then x.floor
  else if 1/2 < x - (x.floor : ℚ) then x.floor + 1
  else if x.floor % 2 = 0 then x.floor else x.floor + 1

/-- `Rat.floor` (the executable floor) agrees with `Int.floor`. -/
theorem ratFloor_eq (q : ℚ) : q.floor = ⌊q⌋ :=
  (Rat.floor_def' q).trans Rat.floor_def.symm

/-- `roundHalfEven` written through `Int.floor`, for the proofs below. -/
theorem roundHalfEven_eq (x : ℚ) : roundHalfEven x =
    (if x - (⌊x⌋ : ℚ) < 1/2 then ⌊x⌋
     else if 1/2 < x - (⌊x⌋ : ℚ) then ⌊x⌋ + 1
     else if ⌊x⌋ % 2 = 0 then ⌊x⌋ else ⌊x⌋ + 1) := by
  unfold roundHalfEven
  rw [ratFloor_eq]

/-- The rational value denoted by formatting `x` with 5 decimal digits
(Rust `{:.5}`). -/
def round5 (x : ℚ) : ℚ := ((roundHalfEven (x * 100000) : ℤ) : ℚ) / 100000

/-- Model of Rust `format!("{:.d}", q)` for an f64 value `q`. -/
def formatFixed (d : ℕ) (q : ℚ) : String :=
  let scaled := (roundHalfEven (|q| * (10 : ℚ) ^ d)).toNat
  let sign := if q < 0 then "-" else ""
  if d = 0 then sign ++ natToString scaled
  else
    sign ++ natToString (scaled / 10 ^ d) ++ "." ++
      String.mk (padZeros d (natToString (scaled % 10 ^ d)).data)

/-- Fractional-part digits of `r` (expects `0 ≤ r < 1`); stops when the
remainder hits zero, or after `fuel` digits. -/
def fracDigitsAux : ℕ → ℚ → List Char
  | 0, _ => []
  | fuel + 1, r =>
    if r = 0 then []
    else
      let d := ((r * 10).floor).toNat
      digitChar (min d 9) :: fracDigitsAux fuel (r * 10 - (d : ℚ))

/-- Model of Rust `format!("{}", q)` (f64 Display, shortest decimal form):
sign, integer part, and - when nonzero - the fractional digits. -/
def displayQ (q : ℚ) : String :=
  let sign := if q < 0 then "-" else ""
  let a := |q|
  let fr := a - (a.floor : ℚ)
  sign ++ natToString a.floor.toNat ++
    (if fr = 0 then "" else "." ++ String.mk (fracDigitsAux 99 fr))

/-! ## atempo chain (export/mod.rs, `atempo_chain`, lines 200-219)

The Rust function pushes the strings "atempo=2.0" / "atempo=0.5" while
`remaining` is out of the filter's [0.5, 2.0] range, then one final
"atempo={:.5}" with the residual.  The two `while` loops are embedded as
the recursions `halveLoop` / `doubleLoop`; `atempoFactors` returns the
numeric values of the emitted factors and `atempo_chain` the joined
filter string, both assembled from the same loop results. -/

/-- Lemma used for termination of both loops. -/
theorem ceil_toNat_half_lt {u : ℚ} (h : 2 < u) : (⌈u / 2⌉).toNat < (⌈u⌉).toNat := by
  have h1 : u / 2 ≤ u - ((1 : ℤ) : ℚ) := by push_cast; linarith
  have h2 : ⌈u / 2⌉ ≤ ⌈u⌉ - 1 := by
    calc ⌈u / 2⌉ ≤ ⌈u - ((1 : ℤ) : ℚ)⌉ := Int.ceil_mono h1
    _ = ⌈u⌉ - 1 := Int.ceil_sub_int u 1
  have h3 : (3 : ℤ) ≤ ⌈u⌉ := by
    have hq : (2 : ℚ) < ⌈u⌉ := lt_of_lt_of_le h (Int.le_ceil u)
    have hz : (2 : ℤ) < ⌈u⌉ := by exact_mod_cast hq
    omega
  have h0 : (0 : ℤ) < ⌈u⌉ := by omega
  have : ⌈u / 2⌉ < ⌈u⌉ := by omega
  exact (Int.toNat_lt_toNat h0).mpr this

/-- `while remaining > 2.0 { parts.push("atempo=2.0"); remaining /= 2.0 }`:
returns the pushed factors and the final `remaining`. -/
def halveLoop (r : ℚ) : List ℚ × ℚ :=
  if h : 2 < r then
    let p := halveLoop (r / 2)
    ((2 : ℚ) :: p.1, p.2)
  else ([], r)
termination_by (⌈r⌉).toNat
decreasing_by
  exact ceil_toNat_half_lt h

/-- `while remaining < 0.5 { parts.push("atempo=0.5"); remaining /= 0.5 }`:
returns the pushed factors and the final `remaining`.  The `0 < r`
conjunct in the guard records the Rust precondition (the loop is reached
only with `remaining > 0`, the non-positive case having returned `None`
already); conjoining it makes the recursion well-founded without changing
any reachable behaviour. -/
def doubleLoop (r : ℚ) : List ℚ × ℚ :=
  if h : 0 < r ∧ r < 1/2 then
    let p := doubleLoop (r / (1/2))
    ((1/2 : ℚ) :: p.1, p.2)
  else ([], r)
termination_by (⌈1/r⌉).toNat
decreasing_by
  have h2 : 2 < 1 / r := by
    rw [lt_div_iff₀ h.1]
    linarith [h.2]
  have he : 1 / (r / (1/2)) = (1 / r) / 2 := by
    field_simp
  calc (⌈1 / (r / (1/2))⌉).toNat = (⌈(1/r) / 2⌉).toNat := by rw [he]
  _ < (⌈1/r⌉).toNat := ceil_toNat_half_lt h2

theorem halveLoop_of_le (r : ℚ) (h : ¬ 2 < r) : halveLoop r = ([], r) := by
  rw [halveLoop]
  simp [h]

theorem halveLoop_of_gt (r : ℚ) (h : 2 < r) :
    halveLoop r = ((2 : ℚ) :: (halveLoop (r / 2)).1, (halveLoop (r / 2)).2) := by
  rw [halveLoop]
  simp [h]

theorem doubleLoop_of_ge (r : ℚ) (h : ¬ r < 1/2) : doubleLoop r = ([], r) := by
  rw [doubleLoop]
  rw [dif_neg (fun hc => h hc.2)]

theorem doubleLoop_of_lt (r : ℚ) (hr : 0 < r) (h : r < 1/2) :
    doubleLoop r =
      ((1/2 : ℚ) :: (doubleLoop (r / (1/2))).1, (doubleLoop (r / (1/2))).2) := by
  rw [doubleLoop]
  rw [dif_pos ⟨hr, h⟩]

/-- The final `remaining` of the halving loop stays positive. -/
theorem halveLoop_snd_pos (r : ℚ) (hr : 0 < r) : 0 < (halveLoop r).2 := by
  by_cases h : 2 < r
  · rw [halveLoop_of_gt r h]
    exact halveLoop_snd_pos (r / 2) (by positivity)
  · rw [halveLoop_of_le r h]
    exact hr
termination_by (⌈r⌉).toNat
decreasing_by
  exact ceil_toNat_half_lt h

/-- Numeric values of the factors `atempo_chain` emits
(export/mod.rs lines 200-219; `speed.is_finite()` is vacuous over ℚ). -/
def atempoFactors (speed : ℚ) : Option (List ℚ) :=
  if speed ≤ 0 ∨ |speed - 1| < 1/100 then none
  else
    let p1 := halveLoop speed
    let p2 := doubleLoop p1.2
    some (p1.1 ++ p2.1 ++ [round5 p2.2])

/-- The joined `atempo=...` filter string (the source's return value). -/
def atempo_chain (speed : ℚ) : Option String :=
  if speed ≤ 0 ∨ |speed - 1| < 1/100 then none
  else
    let p1 := halveLoop speed
    let p2 := doubleLoop p1.2
    let sep : String := ","
    some (String.intercalate sep
      (p1.1.map (fun _ => "atempo=2.0") ++ p2.1.map (fun _ => "atempo=0.5") ++
        ["atempo=" ++ formatFixed 5 p2.2]))

/-! ## Properties of the tempo loops -/

theorem halveLoop_mem (r : ℚ) : ∀ f ∈ (halveLoop r).1, f = 2 := by
  by_cases h : 2 < r
  · rw [halveLoop_of_gt r h]
    intro f hf
    rcases List.mem_cons.mp hf with hf' | hf'
    · exact hf'
    · exact halveLoop_mem (r / 2) f hf'
  · rw [halveLoop_of_le r h]
    simp
termination_by (⌈r⌉).toNat
decreasing_by
  exact ceil_toNat_half_lt h

theorem halveLoop_prod (r : ℚ) : (halveLoop r).1.prod * (halveLoop r).2 = r := by
  by_cases h : 2 < r
  · rw [halveLoop_of_gt r h]
    have ih := halveLoop_prod (r / 2)
    simp only [List.prod_cons]
    rw [mul_assoc]
    rw [ih]
    ring
  · rw [halveLoop_of_le r h]
    simp
termination_by (⌈r⌉).toNat
decreasing_by
  exact ceil_toNat_half_lt h

theorem halveLoop_snd_bounds (r : ℚ) (h : 2 < r) :
    1 < (halveLoop r).2 ∧ (halveLoop r).2 ≤ 2 := by
  rw [halveLoop_of_gt r h]
  by_cases h2 : 2 < r / 2
  · exact halveLoop_snd_bounds (r / 2) h2
  · rw [halveLoop_of_le (r / 2) h2]
    exact ⟨by linarith, not_lt.mp h2⟩
termination_by (⌈r⌉).toNat
decreasing_by
  exact ceil_toNat_half_lt h

theorem doubleLoop_mem (r : ℚ) : ∀ f ∈ (doubleLoop r).1, f = 1/2 := by
  by_cases h : 0 < r ∧ r < 1/2
  · rw [doubleLoop_of_lt r h.1 h.2]
    intro f hf
    rcases List.mem_cons.mp hf with hf' | hf'
    · exact hf'
    · exact doubleLoop_mem (r / (1/2)) f hf'
  · rw [doubleLoop]
    rw [dif_neg h]
    simp
termination_by (⌈1/r⌉).toNat
decreasing_by
  have h2 : 2 < 1 / r := by
    rw [lt_div_iff₀ h.1]
    linarith [h.2]
  have he : 1 / (r / (1/2)) = (1 / r) / 2 := by
    field_simp
  calc (⌈1 / (r / (1/2))⌉).toNat = (⌈(1/r) / 2⌉).toNat := by rw [he]
  _ < (⌈1/r⌉).toNat := ceil_toNat_half_lt h2

theorem doubleLoop_prod (r : ℚ) : (doubleLoop r).1.prod * (doubleLoop r).2 = r := by
  by_cases h : 0 < r ∧ r < 1/2
  · rw [doubleLoop_of_lt r h.1 h.2]
    have ih := doubleLoop_prod (r / (1/2))
    simp only [List.prod_cons]
    rw [mul_assoc]
    rw [ih]
    ring
  · rw [doubleLoop]
    rw [dif_neg h]
    simp
termination_by (⌈1/r⌉).toNat
decreasing_by
  have h2 : 2 < 1 / r := by
    rw [lt_div_iff₀ h.1]
    linarith [h.2]
  have he : 1 / (r / (1/2)) = (1 / r) / 2 := by
    field_simp
  calc (⌈1 / (r / (1/2))⌉).toNat = (⌈(1/r) / 2⌉).toNat := by rw [he]
  _ < (⌈1/r⌉).toNat := ceil_toNat_half_lt h2

theorem doubleLoop_snd_bounds (r : ℚ) (hr : 0 < r) (h : r < 1/2) :
    1/2 ≤ (doubleLoop r).2 ∧ (doubleLoop r).2 < 1 := by
  rw [doubleLoop_of_lt r hr h]
  have he : r / (1/2) = 2 * r := by ring
  by_cases h2 : 2 * r < 1/2
  · rw [he]
    exact doubleLoop_snd_bounds (2 * r) (by linarith) h2
  · rw [he]
    rw [doubleLoop_of_ge (2 * r) h2]
    exact ⟨not_lt.mp h2, by linarith⟩
termination_by (⌈1/r⌉).toNat
decreasing_by
  have h2 : 2 < 1 / r := by
    rw [lt_div_iff₀ hr]
    linarith
  have he2 : 1 / (2 * r) = (1 / r) / 2 := by
    field_simp
    ring
  calc (⌈1 / (2 * r)⌉).toNat = (⌈(1/r) / 2⌉).toNat := by rw [he2]
  _ < (⌈1/r⌉).toNat := ceil_toNat_half_lt h2

/-! ## Properties of half-to-even rounding -/

theorem roundHalfEven_le {y : ℚ} {n : ℤ} (h : y ≤ n) : roundHalfEven y ≤ n := by
  have hfl : ⌊y⌋ ≤ n := by
    have := Int.floor_mono h
    simpa using this
  have key : 1/2 ≤ y - (⌊y⌋ : ℚ) → ⌊y⌋ + 1 ≤ n := by
    intro hge
    rcases lt_or_eq_of_le hfl with hlt | heq
    · omega
    · exfalso
      rw [heq] at hge
      linarith
  rw [roundHalfEven_eq]
  split_ifs with h1 h2 h3
  · exact hfl
  · exact key (le_of_lt h2)
  · exact hfl
  · exact key (not_lt.mp h1)

theorem le_roundHalfEven {y : ℚ} {n : ℤ} (h : (n : ℚ) ≤ y) : n ≤ roundHalfEven y := by
  have hfl : n ≤ ⌊y⌋ := Int.le_floor.mpr h
  rw [roundHalfEven_eq]
  split_ifs <;> omega

theorem abs_roundHalfEven_sub (y : ℚ) : |(roundHalfEven y : ℚ) - y| ≤ 1/2 := by
  have h0 : (0:ℚ) ≤ y - (⌊y⌋ : ℚ) := by
    have := Int.floor_le y
    linarith
  have h1 : y - (⌊y⌋ : ℚ) < 1 := by
    have := Int.lt_floor_add_one y
    linarith
  rw [roundHalfEven_eq]
  split_ifs with hf hg hev <;>
    (rw [abs_le]; push_cast; constructor <;> linarith)

theorem abs_round5_sub (x : ℚ) : |round5 x - x| ≤ 1/200000 := by
  have h2 : round5 x - x = ((roundHalfEven (x * 100000) : ℚ) - x * 100000) / 100000 := by
    unfold round5
    ring
  rw [h2, abs_div]
  have := abs_roundHalfEven_sub (x * 100000)
  rw [abs_of_pos (show (0:ℚ) < 100000 by norm_num)]
  rw [div_le_iff₀ (show (0:ℚ) < 100000 by norm_num)]
  linarith

theorem round5_bounds (x : ℚ) (h1 : 1/2 ≤ x) (h2 : x ≤ 2) :
    1/2 ≤ round5 x ∧ round5 x ≤ 2 := by
  have ha : ((50000 : ℤ) : ℚ) ≤ x * 100000 := by push_cast; linarith
  have hb : x * 100000 ≤ ((200000 : ℤ) : ℚ) := by push_cast; linarith
  have hla := le_roundHalfEven ha
  have hlb := roundHalfEven_le hb
  unfold round5
  constructor
  · rw [le_div_iff₀ (show (0:ℚ) < 100000 by norm_num)]
    have hc : ((50000 : ℤ) : ℚ) ≤ (roundHalfEven (x * 100000) : ℚ) := by exact_mod_cast hla
    push_cast at hc
    linarith
  · rw [div_le_iff₀ (show (0:ℚ) < 100000 by norm_num)]
    have hc : ((roundHalfEven (x * 100000) : ℤ) : ℚ) ≤ ((200000 : ℤ) : ℚ) := by exact_mod_cast hlb
    push_cast at hc
    linarith

/-! ## Claim C3 -/

/-- C3 (amended): for every `v > 0` with `|v - 1| ≥ 0.01` the emitted
tempo factors all lie in [0.5, 2.0] and their product equals `v` within
`1e-4 · max 1 v` (a relative rather than absolute tolerance: the final
factor is rounded to 5 decimal digits, and that rounding error is scaled
back up by the previously emitted powers of two); for `v ≤ 0` or `v`
within 0.01 of 1.0 no filter is returned. -/
theorem atempo_factors_bounds_and_noop (v : ℚ) :
    (0 < v → 1/100 ≤ |v - 1| →
      ∃ fs, atempoFactors v = some fs ∧
        (∀ f ∈ fs, 1/2 ≤ f ∧ f ≤ 2) ∧
        |fs.prod - v| ≤ 1/10000 * max 1 v) ∧
    ((v ≤ 0 ∨ |v - 1| < 1/100) → atempoFactors v = none ∧ atempo_chain v = none) := by
  constructor
  · intro hv ht
    have hcond : ¬(v ≤ 0 ∨ |v - 1| < 1/100) := by
      push_neg
      exact ⟨hv, ht⟩
    obtain ⟨l1, s1, h1⟩ : ∃ l s, halveLoop v = (l, s) := ⟨_, _, rfl⟩
    obtain ⟨l2, s2, h2⟩ : ∃ l s, doubleLoop s1 = (l, s) := ⟨_, _, rfl⟩
    have heq : atempoFactors v = some (l1 ++ l2 ++ [round5 s2]) := by
      unfold atempoFactors
      rw [if_neg hcond]
      simp only [h1, h2]
    have hs1pos : 0 < s1 := by
      have := halveLoop_snd_pos v hv
      rw [h1] at this
      exact this
    have hp1 : l1.prod * s1 = v := by
      have := halveLoop_prod v
      rw [h1] at this
      exact this
    have hp2 : l2.prod * s2 = s1 := by
      have := doubleLoop_prod s1
      rw [h2] at this
      exact this
    have hmem1 : ∀ f ∈ l1, f = 2 := by
      have := halveLoop_mem v
      rw [h1] at this
      exact this
    have hmem2 : ∀ f ∈ l2, f = 1/2 := by
      have := doubleLoop_mem s1
      rw [h2] at this
      exact this
    -- bounds on the residual factor, by the three loop cases
    have hs2b : 1/2 ≤ s2 ∧ s2 ≤ 2 := by
      by_cases hbig : 2 < v
      · have hb := halveLoop_snd_bounds v hbig
        rw [h1] at hb
        have hd : doubleLoop s1 = ([], s1) :=
          doubleLoop_of_ge s1 (by intro hlt; linarith [hb.1])
        rw [h2] at hd
        have hs : s2 = s1 := congrArg Prod.snd hd
        rw [hs]
        exact ⟨by linarith [hb.1], hb.2⟩
      · have h1eq : halveLoop v = ([], v) := halveLoop_of_le v hbig
        have hs1v : s1 = v := by
          rw [h1] at h1eq
          exact congrArg Prod.snd h1eq
        by_cases hsmall : v < 1/2
        · have hb := doubleLoop_snd_bounds v hv hsmall
          rw [← hs1v, h2] at hb
          exact ⟨hb.1, by linarith [hb.2]⟩
        · have hd : doubleLoop s1 = ([], s1) :=
            doubleLoop_of_ge s1 (by rw [hs1v]; exact hsmall)
          rw [h2] at hd
          have hs : s2 = s1 := congrArg Prod.snd hd
          rw [hs, hs1v]
          exact ⟨not_lt.mp hsmall, not_lt.mp hbig⟩
    have hs2pos : 0 < s2 := lt_of_lt_of_le (by norm_num) hs2b.1
    have hPs2 : (l1.prod * l2.prod) * s2 = v := by
      rw [mul_assoc, hp2, hp1]
    have hPpos : 0 < l1.prod * l2.prod := by
      have : l1.prod * l2.prod = v / s2 := (eq_div_iff (ne_of_gt hs2pos)).mpr hPs2
      rw [this]
      exact div_pos hv hs2pos
    have hPle : l1.prod * l2.prod ≤ max 1 v := by
      by_cases hbig : 2 < v
      · have hb := halveLoop_snd_bounds v hbig
        rw [h1] at hb
        have hd : doubleLoop s1 = ([], s1) :=
          doubleLoop_of_ge s1 (by intro hlt; linarith [hb.1])
        rw [h2] at hd
        have hl2e : l2 = [] := congrArg Prod.fst hd
        rw [hl2e, List.prod_nil, mul_one]
        have hl1pos : 0 < l1.prod := by
          have : l1.prod = v / s1 := (eq_div_iff (ne_of_gt hs1pos)).mpr hp1
          rw [this]
          exact div_pos hv hs1pos
        have : l1.prod ≤ v := by nlinarith [hb.1, hl1pos]
        exact le_trans this (le_max_right 1 v)
      · have h1eq : halveLoop v = ([], v) := halveLoop_of_le v hbig
        rw [h1] at h1eq
        have hl1e : l1 = [] := congrArg Prod.fst h1eq
        have hs1v : s1 = v := congrArg Prod.snd h1eq
        rw [hl1e, List.prod_nil, one_mul]
        have hl2v : l2.prod * s2 = v := by rw [hp2, hs1v]
        have hl2pos : 0 < l2.prod := by
          have : l2.prod = v / s2 := (eq_div_iff (ne_of_gt hs2pos)).mpr hl2v
          rw [this]
          exact div_pos hv hs2pos
        have hle1 : l2.prod ≤ 1 := by
          by_cases hsmall : v < 1/2
          · nlinarith [mul_le_mul_of_nonneg_left hs2b.1 (le_of_lt hl2pos)]
          · have hd : doubleLoop s1 = ([], s1) :=
              doubleLoop_of_ge s1 (by rw [hs1v]; exact hsmall)
            rw [h2] at hd
            have : l2 = [] := congrArg Prod.fst hd
            rw [this, List.prod_nil]
        exact le_trans hle1 (le_max_left 1 v)
    refine ⟨_, heq, ?_, ?_⟩
    · intro f hf
      rcases List.mem_append.mp hf with hf1 | hf2
      · rcases List.mem_append.mp hf1 with ha | hb
        · rw [hmem1 f ha]
          norm_num
        · rw [hmem2 f hb]
          norm_num
      · have : f = round5 s2 := by
          simpa using hf2
        rw [this]
        exact round5_bounds s2 hs2b.1 hs2b.2
    · have hprodeq : (l1 ++ l2 ++ [round5 s2]).prod = (l1.prod * l2.prod) * round5 s2 := by
        simp [List.prod_append, mul_assoc]
      rw [hprodeq]
      have hdiff : (l1.prod * l2.prod) * round5 s2 - v
          = (l1.prod * l2.prod) * (round5 s2 - s2) := by
        rw [mul_sub, hPs2]
      rw [hdiff, abs_mul, abs_of_pos hPpos]
      have h5 := abs_round5_sub s2
      have hstep : l1.prod * l2.prod * |round5 s2 - s2| ≤ l1.prod * l2.prod * (1/200000) :=
        mul_le_mul_of_nonneg_left h5 (le_of_lt hPpos)
      have hmax : (1 : ℚ) ≤ max 1 v := le_max_left 1 v
      nlinarith [hstep, hPle, hmax]
  · intro hcond
    constructor
    · unfold atempoFactors
      rw [if_pos hcond]
    · unfold atempo_chain
      rw [if_pos hcond]

/-- Witness for C3's theorem at the concrete speed 3. -/
theorem atempo_factors_bounds_witness :
    ∃ fs, atempoFactors 3 = some fs ∧
      (∀ f ∈ fs, 1/2 ≤ f ∧ f ≤ 2) ∧
      |fs.prod - 3| ≤ 1/10000 * max 1 3 :=
  (atempo_factors_bounds_and_noop 3).1 (by norm_num) (by norm_num)

/-- Closed form of the halving loop after `a` iterations. -/
theorem halveLoop_closed (a : ℕ) : ∀ r : ℚ, (∀ i < a, 2 < r / 2 ^ i) → ¬(2 < r / 2 ^ a) →
    halveLoop r = (List.replicate a 2, r / 2 ^ a) := by
  have key : ∀ (r : ℚ) (i : ℕ), r / 2 / 2 ^ i = r / 2 ^ (i + 1) := by
    intro r i
    rw [div_div, pow_succ, mul_comm]
  induction a with
  | zero =>
    intro r _ hle
    simpa using halveLoop_of_le r (by simpa using hle)
  | succ n ih =>
    intro r hgt hle
    have h0 : 2 < r := by simpa using hgt 0 (Nat.succ_pos n)
    rw [halveLoop_of_gt r h0]
    have ihr := ih (r / 2) (fun i hi => by rw [key]; exact hgt (i + 1) (Nat.succ_lt_succ hi))
      (by rw [key]; exact hle)
    rw [ihr]
    rw [key]
    rfl

/-- C3 counterexample: at speed 700 the product of the emitted factors is
`512 · 1.36719 = 700.00128`, off by more than the claimed absolute
tolerance `1e-4`. -/
theorem atempo_abs_tolerance_counterexample :
    ∃ fs, atempoFactors 700 = some fs ∧ 1/10000 < |fs.prod - 700| := by
  have hh : halveLoop (700:ℚ) = (List.replicate 9 (2:ℚ), 175/128) := by
    have hthis := halveLoop_closed 9 700 (by intro i hi; interval_cases i <;> norm_num)
      (by norm_num)
    rw [hthis]
    norm_num
  have hd : doubleLoop (175/128 : ℚ) = ([], 175/128) := doubleLoop_of_ge _ (by norm_num)
  have hr5 : round5 (175/128 : ℚ) = 136719/100000 := by
    unfold round5
    rw [show roundHalfEven ((175:ℚ)/128 * 100000) = 136719 from by with_unfolding_all decide]
    norm_num
  refine ⟨List.replicate 9 (2:ℚ) ++ [] ++ [(136719:ℚ)/100000], ?_, ?_⟩
  · unfold atempoFactors
    rw [if_neg (by norm_num)]
    simp only [hh, hd]
    rw [hr5]
  · have hpr : (List.replicate 9 (2:ℚ) ++ [] ++ [(136719:ℚ)/100000]).prod = 70000128/100000 := by
      simp only [List.prod_append, List.prod_replicate, List.prod_nil, List.prod_cons,
        List.prod_singleton]
      norm_num
    rw [hpr, abs_of_pos (show (0:ℚ) < 70000128/100000 - 700 by norm_num)]
    norm_num

/-! ## Data model (project/mod.rs) -/

structure Resolution where
  width : ℕ
  height : ℕ
deriving DecidableEq

structure Segment where
  id : String
  start_time : ℚ
  end_time : ℚ
  enabled : Bool
deriving DecidableEq

structure ZoomEffect where
  id : String
  start_time : ℚ
  end_time : ℚ
  scale : ℚ
  x : ℚ
  y : ℚ
deriving DecidableEq

structure SpeedEffect where
  id : String
  start_time : ℚ
  end_time : ℚ
  speed : ℚ
deriving DecidableEq

/-- Display mode of an overlay box (source: project/mod.rs `AnnotationMode`). -/
inductive AnnotMode
  | outline
  | blur
  | text
  | arrow
deriving DecidableEq

/-- Overlay box record (source type: project/mod.rs `Annotation`). -/
structure Annot where
  id : String
  start_time : ℚ
  end_time : ℚ
  x : ℚ
  y : ℚ
  width : ℚ
  height : ℚ
  color : String
  opacity : ℚ
  thickness : ℕ
  text : Option String
  mode : AnnotMode
deriving DecidableEq

inductive CameraOverlayPosition
  | topLeft
  | topRight
  | bottomLeft
  | bottomRight
  | custom
deriving DecidableEq

structure CameraOverlaySettings where
  position : CameraOverlayPosition
  margin : ℕ
  scale : ℚ
  custom_x : ℚ
  custom_y : ℚ
deriving DecidableEq

structure AudioMixSettings where
  system_volume : ℚ
  microphone_volume : ℚ
  microphone_noise_gate : Bool
deriving DecidableEq

structure ColorCorrectionSettings where
  brightness : ℚ
  contrast : ℚ
  saturation : ℚ
deriving DecidableEq

structure EditDecisionList where
  segments : List Segment
  zoom : List ZoomEffect
  speed : List SpeedEffect
  annotations : List Annot
  camera_overlay : CameraOverlaySettings
  audio_mix : AudioMixSettings
  color_correction : ColorCorrectionSettings
deriving DecidableEq

/-- Project record (project/mod.rs; `created_at` plays no role in the
compiler and is omitted). -/
structure Project where
  id : String
  name : String
  screen_video_path : String
  camera_video_path : Option String
  microphone_audio_path : Option String
  camera_offset_ms : Option ℤ
  microphone_offset_ms : Option ℤ
  duration : ℚ
  resolution : Resolution
  edits : EditDecisionList
deriving DecidableEq

/-! ## Export options (export/mod.rs lines 7-113) -/

inductive ExportFormat
  | mp4
  | gif
  | mov
  | wav
  | mp3
deriving DecidableEq

inductive CompressionPreset
  | minimal
  | social
  | web
  | potato
deriving DecidableEq

inductive ResolutionPreset
  | p720
  | p1080
  | p4k
deriving DecidableEq

structure ExportOptions where
  format : ExportFormat
  frame_rate : ℕ
  compression : CompressionPreset
  resolution : ResolutionPreset
deriving DecidableEq

def CompressionPreset.crf : CompressionPreset → ℕ
  | .minimal => 18
  | .social => 23
  | .web => 28
  | .potato => 35

def CompressionPreset.presetName : CompressionPreset → String
  | .minimal => "slow"
  | .social => "medium"
  | .web => "fast"
  | .potato => "veryfast"

def CompressionPreset.audio_bitrate : CompressionPreset → ℕ
  | .minimal => 320
  | .social => 192
  | .web => 128
  | .potato => 96

def ResolutionPreset.height : ResolutionPreset → ℕ
  | .p720 => 720
  | .p1080 => 1080
  | .p4k => 2160

def ResolutionPreset.label : ResolutionPreset → String
  | .p720 => "720p"
  | .p1080 => "1080p"
  | .p4k => "4k"

/-- Rust `f64::round` (ties away from zero). -/
def roundHalfAway (x : ℚ) : ℤ :=
  if x < 0 then -((-x + 1/2).floor) else (x + 1/2).floor

def target_video_bitrate_kbps (options : ExportOptions) : ℕ :=
  let base : ℚ := match options.resolution with
    | .p720 => 5000
    | .p1080 => 8000
    | .p4k => 24000
  let multiplier : ℚ := match options.compression with
    | .minimal => 16/10
    | .social => 1
    | .web => 72/100
    | .potato => 5/10
  (roundHalfAway (base * multiplier)).toNat

structure ActiveZoom where
  scale : ℚ
  x : ℚ
  y : ℚ
deriving DecidableEq

/-- Derived piece (export/mod.rs lines 122-128; the source field `end` is
a reserved word in Lean and is called `stop` here). -/
structure TimelinePiece where
  start : ℚ
  stop : ℚ
  speed : ℚ
  zoom : Option ActiveZoom
deriving DecidableEq

/-- Results of the two external probes (`std::path::Path::exists` and the
ffprobe-based `has_audio_stream`), treated as collaborator inputs. -/
structure ProbeEnv where
  fileExists : String → Bool
  hasAudioStream : String → Bool

/-! ## Timeline segmenter (export/mod.rs lines 221-330) -/

/-- `f64::EPSILON` = 2⁻⁵². -/
def eps52 : ℚ := 1 / 2 ^ 52

/-- export/mod.rs `enabled_segments` (lines 221-236).  `Vec::sort_by`
with `total_cmp` on the start time is a stable ascending sort; a stable
sort's output is unique, so insertion sort models it exactly. -/
def enabled_segments (p : Project) : List (ℚ × ℚ) :=
  let segments := (p.edits.segments.filter (fun s => s.enabled)).map
    (fun s => (s.start_time, s.end_time))
  let segments := if segments.isEmpty then [((0 : ℚ), p.duration)] else segments
  List.insertionSort (fun a b => a.1 ≤ b.1) segments

/-- Model of `Vec::dedup_by`, inner loop: `last` is the most recently
kept element; the predicate receives (candidate, last kept) and `true`
drops the candidate. -/
def dedupByGo (p : ℚ → ℚ → Bool) (last : ℚ) : List ℚ → List ℚ
  | [] => []
  | y :: ys => if p y last then dedupByGo p last ys else y :: dedupByGo p y ys

/-- Model of `Vec::dedup_by` (keeps the first element of each run). -/
def dedupBy (p : ℚ → ℚ → Bool) : List ℚ → List ℚ
  | [] => []
  | x :: xs => x :: dedupByGo p x xs

/-- Model of `slice::windows(2)`: the list of adjacent pairs. -/
def pairsOf : List ℚ → List (ℚ × ℚ)
  | a :: b :: rest => (a, b) :: pairsOf (b :: rest)
  | _ => []

/-- Breakpoint collection for one segment (export/mod.rs lines 247-263):
the segment bounds plus every speed/zoom effect bound strictly inside. -/
def segment_breakpoints (edl : EditDecisionList) (seg_start seg_end : ℚ) : List ℚ :=
  [seg_start, seg_end]
    ++ edl.speed.flatMap (fun effect =>
        (if seg_start < effect.start_time ∧ effect.start_time < seg_end
          then [effect.start_time] else [])
        ++ (if seg_start < effect.end_time ∧ effect.end_time < seg_end
          then [effect.end_time] else []))
    ++ edl.zoom.flatMap (fun z =>
        (if seg_start < z.start_time ∧ z.start_time < seg_end then [z.start_time] else [])
        ++ (if seg_start < z.end_time ∧ z.end_time < seg_end then [z.end_time] else []))

/-- Speed of the piece starting at `start` (export/mod.rs lines 275-281):
the first speed effect whose `[start_time, end_time)` contains `start`. -/
def piece_speed (edl : EditDecisionList) (start : ℚ) : ℚ :=
  ((edl.speed.find? (fun effect =>
      decide (effect.start_time ≤ start ∧ start < effect.end_time))).map
    (fun effect => effect.speed)).getD 1

/-- Zoom of the piece starting at `start` (export/mod.rs lines 283-298):
the first zoom effect containing `start`, kept only if its scale
exceeds 1. -/
def piece_zoom (edl : EditDecisionList) (start : ℚ) : Option ActiveZoom :=
  (edl.zoom.find? (fun effect =>
      decide (effect.start_time ≤ start ∧ start < effect.end_time))).bind
    (fun effect =>
      if 1 < effect.scale then some ⟨effect.scale, effect.x, effect.y⟩ else none)

/-- Pieces generated for one enabled segment (the body of the `for`
loop of export/mod.rs lines 242-307, including the `continue` for
degenerate segments). -/
def segment_pieces (edl : EditDecisionList) (seg_start seg_end : ℚ) : List TimelinePiece :=
  if seg_end ≤ seg_start then []
  else
    (pairsOf (dedupBy (fun a b => decide (|a - b| < eps52))
        (List.insertionSort (fun a b : ℚ => a ≤ b)
          (segment_breakpoints edl seg_start seg_end)))).filterMap
      (fun pr =>
        if pr.2 ≤ pr.1 then none
        else some ⟨pr.1, pr.2, piece_speed edl pr.1, piece_zoom edl pr.1⟩)

/-- export/mod.rs `build_timeline_pieces` (lines 238-319): the pieces of
all enabled segments in order, or the full-duration fallback piece when
that list is empty. -/
def build_timeline_pieces (p : Project) : List TimelinePiece :=
  if ((enabled_segments p).flatMap (fun se => segment_pieces p.edits se.1 se.2)).isEmpty
  then [⟨0, p.duration, 1, none⟩]
  else (enabled_segments p).flatMap (fun se => segment_pieces p.edits se.1 se.2)

/-- export/mod.rs `timeline_is_edited` (lines 321-330). -/
def timeline_is_edited (p : Project) (pieces : List TimelinePiece) : Bool :=
  match pieces with
  | [piece] =>
    decide (1/1000 < piece.start) || decide (1/1000 < |piece.stop - p.duration|) ||
      decide (1/100 < |piece.speed - 1|) || piece.zoom.isSome
  | _ => true

/-! ## Properties of the segmenter's breakpoint machinery -/

theorem eps52_pos : (0 : ℚ) < eps52 := by norm_num [eps52]

/-- `getLastD` of a nonempty list ignores the default. -/
theorem getLastD_irrel : ∀ (l : List ℚ), l ≠ [] → ∀ a b : ℚ, l.getLastD a = l.getLastD b := by
  intro l
  induction l with
  | nil => intro h; exact absurd rfl h
  | cons x xs ih =>
    intro _ a b
    cases xs with
    | nil => rfl
    | cons y ys =>
      simp only [List.getLastD_cons]

/-- Retained elements of `dedup_by` are at least `eps52` apart when the
input is sorted and bounded below by the last kept element. -/
theorem dedupByGo_chain (xs : List ℚ) : ∀ last, List.Sorted (· ≤ ·) xs → (∀ x ∈ xs, last ≤ x) →
    List.Chain' (fun a b => eps52 ≤ b - a)
      (last :: dedupByGo (fun a b => decide (|a - b| < eps52)) last xs) := by
  induction xs with
  | nil =>
    intro last _ _
    simp [dedupByGo]
  | cons y ys ih =>
    intro last hsort hle
    rw [List.sorted_cons] at hsort
    rw [dedupByGo]
    simp only [decide_eq_true_eq]
    by_cases hd : |y - last| < eps52
    · rw [if_pos hd]
      exact ih last hsort.2 (fun x hx => hle x (List.mem_cons_of_mem y hx))
    · rw [if_neg hd]
      rw [List.chain'_cons]
      constructor
      · have hly : last ≤ y := hle y (List.mem_cons_self y ys)
        have habs : |y - last| = y - last := abs_of_nonneg (by linarith)
        rw [habs] at hd
        linarith [not_lt.mp hd]
      · exact ih y hsort.2 hsort.1

/-- The last retained element of `dedup_by` is within `eps52` of the last
input element. -/
theorem dedupByGo_getLastD (xs : List ℚ) : ∀ last,
    |xs.getLastD last -
      (dedupByGo (fun a b => decide (|a - b| < eps52)) last xs).getLastD last| < eps52 := by
  induction xs with
  | nil =>
    intro last
    simpa [dedupByGo] using eps52_pos
  | cons y ys ih =>
    intro last
    rw [dedupByGo]
    simp only [decide_eq_true_eq]
    by_cases hd : |y - last| < eps52
    · rw [if_pos hd]
      cases ys with
      | nil =>
        simpa [dedupByGo, List.getLastD_cons] using hd
      | cons z zs =>
        rw [List.getLastD_cons]
        rw [getLastD_irrel (z :: zs) (by simp) y last]
        exact ih last
    · rw [if_neg hd]
      rw [List.getLastD_cons, List.getLastD_cons]
      exact ih y

/-- Every adjacent pair of a `Chain'` list satisfies the relation. -/
theorem pairsOf_chain_val {R : ℚ → ℚ → Prop} : ∀ l, List.Chain' R l →
    ∀ pr ∈ pairsOf l, R pr.1 pr.2 := by
  intro l
  induction l with
  | nil => simp [pairsOf]
  | cons a tl ih =>
    cases tl with
    | nil => simp [pairsOf]
    | cons b rest =>
      intro hch pr hpr
      rw [List.chain'_cons] at hch
      rw [pairsOf] at hpr
      rcases List.mem_cons.mp hpr with h | h
      · rw [h]
        exact hch.1
      · exact ih hch.2 pr h

/-- Adjacent windows overlap: the second component of one pair is the
first component of the next. -/
theorem pairsOf_adjacent : ∀ l : List ℚ,
    List.Chain' (fun pr qr : ℚ × ℚ => pr.2 = qr.1) (pairsOf l) := by
  intro l
  induction l with
  | nil => simp [pairsOf]
  | cons a tl ih =>
    cases tl with
    | nil => simp [pairsOf]
    | cons b rest =>
      rw [pairsOf, List.chain'_cons']
      refine ⟨?_, ih⟩
      intro h hh
      cases rest with
      | nil =>
        have hpe : pairsOf [b] = ([] : List (ℚ × ℚ)) := rfl
        rw [hpe] at hh
        simp at hh
      | cons c cs =>
        have hpe : pairsOf (b :: c :: cs) = (b, c) :: pairsOf (c :: cs) := rfl
        rw [hpe] at hh
        simp only [List.head?_cons, Option.mem_def, Option.some.injEq] at hh
        rw [← hh]

/-- Telescoping: the widths of the adjacent pairs of `a :: l` sum to
`l.getLastD a - a`. -/
theorem pairsOf_telescope : ∀ (l : List ℚ) (a : ℚ),
    ((pairsOf (a :: l)).map (fun pr => pr.2 - pr.1)).sum = l.getLastD a - a := by
  intro l
  induction l with
  | nil =>
    intro a
    simp [pairsOf]
  | cons b bs ih =>
    intro a
    rw [pairsOf]
    rw [List.map_cons, List.sum_cons, ih b, List.getLastD_cons]
    ring

/-- The last second component of the windows of `a :: b :: l` is the last
element of the list. -/
theorem pairsOf_map_snd_getLastD : ∀ (l : List ℚ) (a b : ℚ),
    ((pairsOf (a :: b :: l)).map (fun pr => pr.2)).getLastD 0 = (b :: l).getLastD 0 := by
  intro l
  induction l with
  | nil =>
    intro a b
    simp [pairsOf]
  | cons c cs ih =>
    intro a b
    rw [pairsOf, List.map_cons, List.getLastD_cons]
    have hne : ((pairsOf (b :: c :: cs)).map (fun pr => pr.2)) ≠ [] := by
      rw [pairsOf]
      simp
    rw [getLastD_irrel _ hne b 0, ih b c]
    simp only [List.getLastD_cons]

/-- Every breakpoint of a segment lies inside `[seg_start, seg_end]`. -/
theorem segment_breakpoints_bounds (edl : EditDecisionList) (s e : ℚ) (hse : s < e) :
    ∀ x ∈ segment_breakpoints edl s e, s ≤ x ∧ x ≤ e := by
  intro x hx
  unfold segment_breakpoints at hx
  rcases List.mem_append.mp hx with hx1 | hxz
  · rcases List.mem_append.mp hx1 with hx0 | hxs
    · rcases List.mem_cons.mp hx0 with h | h
      · rw [h]
        exact ⟨le_refl s, le_of_lt hse⟩
      · rw [List.mem_singleton.mp h]
        exact ⟨le_of_lt hse, le_refl e⟩
    · obtain ⟨ef, _, hin⟩ := List.mem_flatMap.mp hxs
      rcases List.mem_append.mp hin with h | h <;>
        (split_ifs at h with hc
         · rw [List.mem_singleton.mp h]
           exact ⟨le_of_lt hc.1, le_of_lt hc.2⟩
         · simp at h)
  · obtain ⟨z, _, hin⟩ := List.mem_flatMap.mp hxz
    rcases List.mem_append.mp hin with h | h <;>
      (split_ifs at h with hc
       · rw [List.mem_singleton.mp h]
         exact ⟨le_of_lt hc.1, le_of_lt hc.2⟩
       · simp at h)

/-- A sorted list whose minimum is `x` starts with `x`. -/
theorem sorted_head_eq_min (l : List ℚ) (x : ℚ) (hs : List.Sorted (· ≤ ·) l) (hm : x ∈ l)
    (hlb : ∀ y ∈ l, x ≤ y) : ∃ tl, l = x :: tl := by
  cases l with
  | nil => simp at hm
  | cons a t =>
    rw [List.sorted_cons] at hs
    have h1 : x ≤ a := hlb a (List.mem_cons_self a t)
    have h2 : a ≤ x := by
      rcases List.mem_cons.mp hm with h | h
      · rw [h]
      · exact hs.1 x h
    exact ⟨t, by rw [le_antisymm h2 h1]⟩

/-- A sorted list whose maximum is `x` ends with `x`. -/
theorem sorted_getLastD_max : ∀ (l : List ℚ) (x : ℚ), List.Sorted (· ≤ ·) l → x ∈ l →
    (∀ y ∈ l, y ≤ x) → ∀ d, l.getLastD d = x := by
  intro l
  induction l with
  | nil =>
    intro x _ hm
    simp at hm
  | cons a t ih =>
    intro x hs hm hub d
    rw [List.sorted_cons] at hs
    cases t with
    | nil =>
      simp at hm
      rw [hm]
      rfl
    | cons b bs =>
      rw [List.getLastD_cons]
      have hxt : x ∈ b :: bs := by
        rcases List.mem_cons.mp hm with h | h
        · have hab : a ≤ b := hs.1 b (List.mem_cons_self b bs)
          have hbx : b ≤ x := hub b (List.mem_cons_of_mem a (List.mem_cons_self b bs))
          have hbe : b = x := le_antisymm hbx (h ▸ hab)
          exact hbe ▸ List.mem_cons_self b bs
        · exact h
      exact ih x hs.2 hxt (fun y hy => hub y (List.mem_cons_of_mem a hy)) a

/-- Shape of the deduplicated breakpoint list of one segment: it starts
at `seg_start`, its retained elements are at least `eps52` apart, and it
ends within `eps52` of `seg_end`. -/
theorem segment_bps_spec (edl : EditDecisionList) (s e : ℚ) (hse : s < e) :
    ∃ tl, dedupBy (fun a b => decide (|a - b| < eps52))
        (List.insertionSort (fun a b : ℚ => a ≤ b) (segment_breakpoints edl s e)) = s :: tl ∧
      List.Chain' (fun a b => eps52 ≤ b - a) (s :: tl) ∧
      |(s :: tl).getLastD 0 - e| < eps52 := by
  have hperm : List.Perm
      (List.insertionSort (fun a b : ℚ => a ≤ b) (segment_breakpoints edl s e))
      (segment_breakpoints edl s e) := List.perm_insertionSort _ _
  have hsorted : List.Sorted (· ≤ ·)
      (List.insertionSort (fun a b : ℚ => a ≤ b) (segment_breakpoints edl s e)) :=
    List.sorted_insertionSort _ _
  have hmem_bounds : ∀ x ∈ List.insertionSort (fun a b : ℚ => a ≤ b)
      (segment_breakpoints edl s e), s ≤ x ∧ x ≤ e :=
    fun x hx => segment_breakpoints_bounds edl s e hse x (hperm.mem_iff.mp hx)
  have hsmem : s ∈ List.insertionSort (fun a b : ℚ => a ≤ b) (segment_breakpoints edl s e) :=
    hperm.mem_iff.mpr (by simp [segment_breakpoints])
  have hemem : e ∈ List.insertionSort (fun a b : ℚ => a ≤ b) (segment_breakpoints edl s e) :=
    hperm.mem_iff.mpr (by simp [segment_breakpoints])
  obtain ⟨tl0, htl0⟩ := sorted_head_eq_min _ s hsorted hsmem
    (fun y hy => (hmem_bounds y hy).1)
  have hs2 := hsorted
  rw [htl0, List.sorted_cons] at hs2
  refine ⟨dedupByGo (fun a b => decide (|a - b| < eps52)) s tl0, by rw [htl0]; rfl, ?_, ?_⟩
  · exact dedupByGo_chain tl0 s hs2.2 hs2.1
  · have horig : tl0.getLastD s = e := by
      have hmax := sorted_getLastD_max _ e hsorted hemem (fun y hy => (hmem_bounds y hy).2) 0
      rw [htl0, List.getLastD_cons] at hmax
      exact hmax
    have hdl := dedupByGo_getLastD tl0 s
    rw [horig] at hdl
    rw [List.getLastD_cons]
    rw [abs_sub_comm]
    exact hdl

/-- When no window is degenerate the `filterMap` keeps every piece. -/
theorem pieces_filterMap_eq_map (edl : EditDecisionList) :
    ∀ L : List (ℚ × ℚ), (∀ pr ∈ L, ¬ pr.2 ≤ pr.1) →
      L.filterMap (fun pr =>
          if pr.2 ≤ pr.1 then none
          else some (⟨pr.1, pr.2, piece_speed edl pr.1, piece_zoom edl pr.1⟩ : TimelinePiece))
        = L.map (fun pr => ⟨pr.1, pr.2, piece_speed edl pr.1, piece_zoom edl pr.1⟩) := by
  intro L
  induction L with
  | nil => intro _; rfl
  | cons pr rest ih =>
    intro h
    rw [List.filterMap_cons, List.map_cons]
    rw [if_neg (h pr (List.mem_cons_self pr rest))]
    rw [ih (fun q hq => h q (List.mem_cons_of_mem pr hq))]

/-- C4 (amended): for each enabled segment `(s, e)` with `s < e`, the
pieces generated for it are contiguous (`piece[i].end = piece[i+1].start`,
no gaps, no overlaps), their widths sum to the segment duration within
`1e-6`, and - provided the segment is at least `f64::EPSILON` = 2⁻⁵² long -
they are nonempty, the first piece starts exactly at `s`, and the last
piece ends within 2⁻⁵² of `e` (exactly at `e` unless a breakpoint within
2⁻⁵² of `e` was deduplicated away; the original claim's "the last piece
ends at the segment end" fails in that case, see the counterexample). -/
theorem claim4_segment_tiling (p : Project) :
    ∀ se ∈ enabled_segments p, se.1 < se.2 →
      List.Chain' (fun a b : TimelinePiece => a.stop = b.start)
          (segment_pieces p.edits se.1 se.2) ∧
      |((segment_pieces p.edits se.1 se.2).map (fun pc => pc.stop - pc.start)).sum
          - (se.2 - se.1)| < 1/1000000 ∧
      (eps52 ≤ se.2 - se.1 →
        ∃ b2 rest, segment_pieces p.edits se.1 se.2
            = ⟨se.1, b2, piece_speed p.edits se.1, piece_zoom p.edits se.1⟩ :: rest ∧
          |((segment_pieces p.edits se.1 se.2).map (fun pc => pc.stop)).getLastD 0
              - se.2| < eps52) := by
  intro se _ hlt
  obtain ⟨tl, hbps, hchain, hlast⟩ := segment_bps_spec p.edits se.1 se.2 hlt
  have hwide : ∀ pr ∈ pairsOf (se.1 :: tl), eps52 ≤ pr.2 - pr.1 :=
    pairsOf_chain_val (se.1 :: tl) hchain
  have hps : segment_pieces p.edits se.1 se.2 = (pairsOf (se.1 :: tl)).map
      (fun pr => ⟨pr.1, pr.2, piece_speed p.edits pr.1, piece_zoom p.edits pr.1⟩) := by
    unfold segment_pieces
    rw [if_neg (not_le.mpr hlt), hbps]
    exact pieces_filterMap_eq_map p.edits _
      (fun pr hpr => not_le.mpr (by linarith [hwide pr hpr, eps52_pos]))
  have hlast' : |tl.getLastD se.1 - se.2| < eps52 := by
    rw [List.getLastD_cons] at hlast
    exact hlast
  have heps_small : eps52 < 1/1000000 := by norm_num [eps52]
  refine ⟨?_, ?_, ?_⟩
  · rw [hps, List.chain'_map]
    exact pairsOf_adjacent (se.1 :: tl)
  · rw [hps, List.map_map]
    have hc : ((fun pc : TimelinePiece => pc.stop - pc.start) ∘
        (fun pr : ℚ × ℚ => (⟨pr.1, pr.2, piece_speed p.edits pr.1,
          piece_zoom p.edits pr.1⟩ : TimelinePiece))) = fun pr => pr.2 - pr.1 := rfl
    rw [hc, pairsOf_telescope tl se.1]
    have habs := abs_lt.mp hlast'
    rw [abs_lt]
    constructor <;> linarith [habs.1, habs.2]
  · intro heps
    cases tl with
    | nil =>
      exfalso
      have : |se.1 - se.2| < eps52 := by simpa using hlast'
      have h2 := abs_lt.mp this
      linarith [h2.1]
    | cons b2 rest' =>
      refine ⟨b2, (pairsOf (b2 :: rest')).map
        (fun pr => ⟨pr.1, pr.2, piece_speed p.edits pr.1, piece_zoom p.edits pr.1⟩), ?_, ?_⟩
      · rw [hps]
        rfl
      · rw [hps, List.map_map]
        have hc : ((fun pc : TimelinePiece => pc.stop) ∘
            (fun pr : ℚ × ℚ => (⟨pr.1, pr.2, piece_speed p.edits pr.1,
              piece_zoom p.edits pr.1⟩ : TimelinePiece))) = fun pr : ℚ × ℚ => pr.2 := rfl
        rw [hc, pairsOf_map_snd_getLastD rest' se.1 b2]
        rw [getLastD_irrel (b2 :: rest') (by simp) 0 se.1]
        exact hlast'

/-- Each generated piece carries exactly the speed and zoom that
`piece_speed` / `piece_zoom` assign to its left breakpoint. -/
theorem segment_pieces_fields (edl : EditDecisionList) (s e : ℚ) :
    ∀ pc ∈ segment_pieces edl s e,
      pc.zoom = piece_zoom edl pc.start ∧ pc.speed = piece_speed edl pc.start := by
  intro pc hpc
  unfold segment_pieces at hpc
  split_ifs at hpc
  · simp at hpc
  · obtain ⟨pr, _, hfn⟩ := List.mem_filterMap.mp hpc
    split_ifs at hfn
    all_goals first
    | (rw [Option.some.injEq] at hfn
       subst hfn
       exact ⟨rfl, rfl⟩)
    | simp at hfn

/-- C6 (amended): deduplication uses `f64::EPSILON` = 2⁻⁵² (not `1e-9`),
so every piece - i.e. every adjacent pair of retained breakpoints - is at
least 2⁻⁵² wide. -/
theorem claim6_min_piece_width (edl : EditDecisionList) (s e : ℚ) :
    ∀ pc ∈ segment_pieces edl s e, eps52 ≤ pc.stop - pc.start := by
  intro pc hpc
  unfold segment_pieces at hpc
  split_ifs at hpc with h
  · simp at hpc
  · obtain ⟨pr, hpr, hfn⟩ := List.mem_filterMap.mp hpc
    obtain ⟨tl, hbps, hchain, _⟩ := segment_bps_spec edl s e (not_le.mp h)
    rw [hbps] at hpr
    have hw := pairsOf_chain_val (s :: tl) hchain pr hpr
    split_ifs at hfn
    all_goals first
    | (rw [Option.some.injEq] at hfn
       subst hfn
       exact hw)
    | simp at hfn

/-- `find?` returns the element at the first index satisfying the
predicate. -/
theorem find?_first_index {α : Type} (pb : α → Bool) : ∀ (l : List α) (i : ℕ)
    (hi : i < l.length), pb (l.get ⟨i, hi⟩) = true →
    (∀ j (hj : j < i), pb (l.get ⟨j, lt_trans hj hi⟩) = false) →
    l.find? pb = some (l.get ⟨i, hi⟩) := by
  intro l
  induction l with
  | nil =>
    intro i hi
    simp at hi
  | cons a t ih =>
    intro i hi hp hprev
    cases i with
    | zero => exact List.find?_cons_of_pos t hp
    | succ n =>
      have ha : pb a = false := hprev 0 (Nat.succ_pos n)
      rw [List.find?_cons_of_neg t (by simp [ha])]
      exact ih n (by simpa using hi) hp (fun j hj => hprev (j + 1) (Nat.succ_lt_succ hj))

/-- C5 (amended): a piece's zoom is decided solely by the FIRST zoom
effect (in declaration order) whose `[start_time, end_time)` contains the
piece's left breakpoint: if that effect's scale exceeds 1 the piece
carries its zoom, otherwise the piece carries none - an earlier
containing effect with scale ≤ 1 masks every later effect (contrary to
the original claim); with no containing effect the zoom is none. -/
theorem claim5_zoom_first_containing (edl : EditDecisionList) (s e : ℚ) :
    ∀ pc ∈ segment_pieces edl s e,
      (∀ (i : ℕ) (hi : i < edl.zoom.length),
        ((edl.zoom.get ⟨i, hi⟩).start_time ≤ pc.start ∧
          pc.start < (edl.zoom.get ⟨i, hi⟩).end_time) →
        (∀ j (hj : j < i), ¬((edl.zoom.get ⟨j, lt_trans hj hi⟩).start_time ≤ pc.start ∧
          pc.start < (edl.zoom.get ⟨j, lt_trans hj hi⟩).end_time)) →
        pc.zoom = (if 1 < (edl.zoom.get ⟨i, hi⟩).scale
          then some ⟨(edl.zoom.get ⟨i, hi⟩).scale, (edl.zoom.get ⟨i, hi⟩).x,
            (edl.zoom.get ⟨i, hi⟩).y⟩
          else none)) ∧
      ((∀ z ∈ edl.zoom, ¬(z.start_time ≤ pc.start ∧ pc.start < z.end_time)) →
        pc.zoom = none) := by
  intro pc hpc
  have hz := (segment_pieces_fields edl s e pc hpc).1
  constructor
  · intro i hi hcont hmask
    rw [hz]
    unfold piece_zoom
    rw [find?_first_index _ edl.zoom i hi (decide_eq_true hcont)
      (fun j hj => decide_eq_false (hmask j hj))]
    rfl
  · intro hall
    rw [hz]
    unfold piece_zoom
    rw [List.find?_eq_none.mpr (fun z hzm => by simp [hall z hzm])]
    rfl

/-- C7: `build_timeline_pieces` never returns an empty list, and when the
per-segment construction yields nothing it returns exactly the single
full-duration speed-1 no-zoom piece. -/
theorem claim7_fallback_piece (p : Project) :
    build_timeline_pieces p ≠ [] ∧
    ((enabled_segments p).flatMap (fun se => segment_pieces p.edits se.1 se.2) = [] →
      build_timeline_pieces p = [⟨0, p.duration, 1, none⟩]) := by
  constructor
  · unfold build_timeline_pieces
    split_ifs with h
    · simp
    · intro he
      rw [he] at h
      exact h rfl
  · intro hfm
    unfold build_timeline_pieces
    rw [hfm]
    rfl

/-! ## Concrete fixtures for witnesses and counterexamples -/

def camDefault : CameraOverlaySettings := ⟨CameraOverlayPosition.bottomRight, 20, 1/4, 1, 1⟩

def mixDefault : AudioMixSettings := ⟨1, 1, false⟩

def ccDefault : ColorCorrectionSettings := ⟨0, 1, 1⟩

/-- One enabled full segment `[0,10]`, no effects. -/
def pW4 : Project :=
  ⟨"idW4", "w4", "screen.mp4", none, none, none, none, 10, ⟨1920, 1080⟩,
    ⟨[⟨"s", 0, 10, true⟩], [], [], [], camDefault, mixDefault, ccDefault⟩⟩

/-- Segment `[0,1]` with a speed effect ending `2⁻⁵³` before the segment
end (that bound is exactly representable in f64, and every arithmetic
step the segmenter performs on it is exact). -/
def pC4 : Project :=
  ⟨"idC4", "c4", "screen.mp4", none, none, none, none, 1, ⟨1920, 1080⟩,
    ⟨[⟨"s", 0, 1, true⟩], [], [⟨"sp", 1/2, 1 - 1/2^53, 2⟩], [],
      camDefault, mixDefault, ccDefault⟩⟩

/-- Segment `[0,10]` with a speed effect `[5, 5 + 2⁻³³]`: its bounds are
farther apart than `f64::EPSILON` but closer than `1e-9`. -/
def edlC6 : EditDecisionList :=
  ⟨[⟨"s", 0, 10, true⟩], [], [⟨"sp", 5, 5 + 1/2^33, 2⟩], [],
    camDefault, mixDefault, ccDefault⟩

/-- Two zoom effects covering `[0,10]`: the first has scale ½ (inactive),
the second scale 2 (active). -/
def edlC5 : EditDecisionList :=
  ⟨[⟨"s", 0, 10, true⟩], [⟨"z1", 0, 10, 1/2, 0, 0⟩, ⟨"z2", 0, 10, 2, 0, 0⟩], [], [],
    camDefault, mixDefault, ccDefault⟩

/-- A project whose only enabled segment is zero-length. -/
def pC7 : Project :=
  ⟨"idC7", "c7", "screen.mp4", none, none, none, none, 5, ⟨1920, 1080⟩,
    ⟨[⟨"s", 3, 3, true⟩], [], [], [], camDefault, mixDefault, ccDefault⟩⟩

theorem pW4_segments_eval : enabled_segments pW4 = [((0 : ℚ), (10 : ℚ))] := by
  norm_num [enabled_segments, pW4, List.insertionSort, List.orderedInsert]

theorem pC4_segments_eval : enabled_segments pC4 = [((0 : ℚ), (1 : ℚ))] := by
  norm_num [enabled_segments, pC4, List.insertionSort, List.orderedInsert]

theorem pC4_pieces_eval : segment_pieces pC4.edits 0 1 =
    [⟨0, 1/2, 1, none⟩, ⟨1/2, 1 - 1/2^53, 2, none⟩] := by
  norm_num [segment_pieces, segment_breakpoints, pC4, List.insertionSort, List.orderedInsert,
    dedupBy, dedupByGo, eps52, pairsOf, List.filterMap, piece_speed, piece_zoom, List.find?,
    List.flatMap, abs_lt]

theorem edlC6_pieces_eval : segment_pieces edlC6 0 10 =
    [⟨0, 5, 1, none⟩, ⟨5, 5 + 1/2^33, 2, none⟩, ⟨5 + 1/2^33, 10, 1, none⟩] := by
  norm_num [segment_pieces, segment_breakpoints, edlC6, List.insertionSort, List.orderedInsert,
    dedupBy, dedupByGo, eps52, pairsOf, List.filterMap, piece_speed, piece_zoom, List.find?,
    List.flatMap, abs_lt]

theorem edlC5_pieces_eval : segment_pieces edlC5 0 10 = [⟨0, 10, 1, none⟩] := by
  norm_num [segment_pieces, segment_breakpoints, edlC5, List.insertionSort, List.orderedInsert,
    dedupBy, dedupByGo, eps52, pairsOf, List.filterMap, piece_speed, piece_zoom, List.find?,
    List.flatMap, abs_lt]

/-- C4 counterexample: in `pC4` the deduplication drops the segment-end
breakpoint `1` (it lies within `f64::EPSILON` of the speed effect's end
`1 - 2⁻⁵³`), so the last piece ends at `1 - 2⁻⁵³`, not at the segment
end `1`. -/
theorem claim4_counterexample :
    ((0 : ℚ), (1 : ℚ)) ∈ enabled_segments pC4 ∧ (0 : ℚ) < 1 ∧
    ((segment_pieces pC4.edits 0 1).map (fun pc => pc.stop)).getLastD 0 = 1 - 1/2^53 ∧
    (1 - 1/2^53 : ℚ) ≠ 1 := by
  refine ⟨?_, by norm_num, ?_, by norm_num⟩
  · rw [pC4_segments_eval]
    simp
  · rw [pC4_pieces_eval]
    rfl

/-- Witness for C4's theorem at the one-segment no-effect project. -/
theorem claim4_segment_tiling_witness :
    List.Chain' (fun a b : TimelinePiece => a.stop = b.start) (segment_pieces pW4.edits 0 10) ∧
    |((segment_pieces pW4.edits 0 10).map (fun pc => pc.stop - pc.start)).sum
        - ((10 : ℚ) - 0)| < 1/1000000 ∧
    ∃ b2 rest, segment_pieces pW4.edits 0 10
        = ⟨0, b2, piece_speed pW4.edits 0, piece_zoom pW4.edits 0⟩ :: rest ∧
      |((segment_pieces pW4.edits 0 10).map (fun pc => pc.stop)).getLastD 0 - 10| < eps52 := by
  have h := claim4_segment_tiling pW4 ((0 : ℚ), (10 : ℚ))
    (by rw [pW4_segments_eval]; simp) (by norm_num)
  exact ⟨h.1, h.2.1, h.2.2 (by norm_num [eps52])⟩

/-- C6 counterexample: the two retained adjacent breakpoints `5` and
`5 + 2⁻³³` are closer than `1e-9` (the threshold the claim states), yet
both survive deduplication and form a piece. -/
theorem claim6_counterexample :
    (⟨5, 5 + 1/2^33, 2, none⟩ : TimelinePiece) ∈ segment_pieces edlC6 0 10 ∧
    ((5 + 1/2^33 : ℚ) - 5 < 1/1000000000) := by
  constructor
  · rw [edlC6_pieces_eval]
    simp
  · norm_num

/-- Witness for C6's theorem at a concrete piece. -/
theorem claim6_min_piece_width_witness :
    (⟨0, 5, 1, none⟩ : TimelinePiece) ∈ segment_pieces edlC6 0 10 ∧
    eps52 ≤ (⟨0, 5, 1, none⟩ : TimelinePiece).stop - (⟨0, 5, 1, none⟩ : TimelinePiece).start := by
  have hmem : (⟨0, 5, 1, none⟩ : TimelinePiece) ∈ segment_pieces edlC6 0 10 := by
    rw [edlC6_pieces_eval]
    simp
  exact ⟨hmem, claim6_min_piece_width edlC6 0 10 _ hmem⟩

/-- C5 counterexample: in `edlC5` the second zoom effect contains the
piece's breakpoint `0` and has scale `2 > 1`, so under the original
claim the piece would carry its zoom; the code instead takes the FIRST
containing effect (scale ½ ≤ 1) and produces no zoom at all. -/
theorem claim5_counterexample :
    segment_pieces edlC5 0 10 = [⟨0, 10, 1, none⟩] ∧
    edlC5.zoom.get ⟨1, by norm_num [edlC5]⟩ = ⟨"z2", 0, 10, 2, 0, 0⟩ ∧
    ((⟨"z2", 0, 10, 2, 0, 0⟩ : ZoomEffect).start_time ≤ 0 ∧
      (0 : ℚ) < (⟨"z2", 0, 10, 2, 0, 0⟩ : ZoomEffect).end_time ∧
      1 < (⟨"z2", 0, 10, 2, 0, 0⟩ : ZoomEffect).scale) ∧
    (⟨0, 10, 1, none⟩ : TimelinePiece).zoom = none := by
  refine ⟨edlC5_pieces_eval, rfl, ⟨le_refl 0, by norm_num, by norm_num⟩, rfl⟩

/-- Witness for C5's theorem: with a single containing effect of scale 3
the piece carries exactly that zoom. -/
theorem claim5_zoom_first_containing_witness :
    (⟨0, 10, 1, piece_zoom
      (⟨[⟨"s", 0, 10, true⟩], [⟨"z", 0, 10, 3, 7, 9⟩], [], [], camDefault, mixDefault,
        ccDefault⟩ : EditDecisionList) 0⟩ : TimelinePiece).zoom = some ⟨3, 7, 9⟩ := by
  have hmem : (⟨0, 10, 1, piece_zoom
      (⟨[⟨"s", 0, 10, true⟩], [⟨"z", 0, 10, 3, 7, 9⟩], [], [], camDefault, mixDefault,
        ccDefault⟩ : EditDecisionList) 0⟩ : TimelinePiece) ∈ segment_pieces
      (⟨[⟨"s", 0, 10, true⟩], [⟨"z", 0, 10, 3, 7, 9⟩], [], [], camDefault, mixDefault,
        ccDefault⟩ : EditDecisionList) 0 10 := by
    norm_num [segment_pieces, segment_breakpoints, List.insertionSort, List.orderedInsert,
      dedupBy, dedupByGo, eps52, pairsOf, List.filterMap, piece_speed, List.find?,
      List.flatMap, abs_lt]
  have h := (claim5_zoom_first_containing _ 0 10 _ hmem).1 0 (by norm_num)
    (by norm_num) (fun j hj => absurd hj (Nat.not_lt_zero j))
  simpa using h

/-- Witness for C7: with only a zero-length enabled segment the fallback
full-duration piece is produced. -/
theorem claim7_fallback_piece_witness :
    build_timeline_pieces pC7 ≠ [] ∧
    build_timeline_pieces pC7 = [⟨0, pC7.duration, 1, none⟩] := by
  have hempty : (enabled_segments pC7).flatMap
      (fun se => segment_pieces pC7.edits se.1 se.2) = [] := by
    norm_num [enabled_segments, pC7, List.insertionSort, List.orderedInsert, List.flatMap,
      segment_pieces]
  exact ⟨(claim7_fallback_piece pC7).1, (claim7_fallback_piece pC7).2 hempty⟩

/-! ## Audio chain builder (export/mod.rs lines 332-415) -/

def emptyString : String := ""

/-- The per-piece audio filter string
(`atrim=...:...,asetpts=PTS-STARTPTS` plus an optional tempo chain). -/
def audioPieceFilter (inputLabel : String) (piece : TimelinePiece) (label : String) : String :=
  inputLabel ++ "atrim=start=" ++ formatFixed 6 piece.start ++ ":end=" ++
    formatFixed 6 piece.stop ++ ",asetpts=PTS-STARTPTS" ++
    (match atempo_chain piece.speed with
      | some chain => "," ++ chain
      | none => emptyString) ++
    label

/-- `format!("[{}{}]", prefix, idx)`. -/
def audioPieceLabel (pre : String) (idx : ℕ) : String :=
  "[" ++ pre ++ natToString idx ++ "]"

/-- The general (non-short-circuit) body of `build_audio_timeline_filter`:
one trim/speed filter per piece, concatenated when there are several. -/
def buildAudioPiecesCore (inputLabel : String) (pieces : List TimelinePiece) (pre : String) :
    List String × String :=
  if ((List.range pieces.length).map (audioPieceLabel pre)).length = 1 then
    (pieces.enum.map (fun ip => audioPieceFilter inputLabel ip.2 (audioPieceLabel pre ip.1)),
      ((List.range pieces.length).map (audioPieceLabel pre)).headD emptyString)
  else
    (pieces.enum.map (fun ip => audioPieceFilter inputLabel ip.2 (audioPieceLabel pre ip.1)) ++
      [String.join ((List.range pieces.length).map (audioPieceLabel pre)) ++
        "concat=n=" ++ natToString pieces.length ++ ":v=0:a=1" ++ "[" ++ pre ++ "out]"],
      "[" ++ pre ++ "out]")

/-- export/mod.rs `build_audio_timeline_filter` (lines 332-374). -/
def build_audio_timeline_filter (inputLabel : String) (pieces : List TimelinePiece)
    (pre : String) : List String × String :=
  match pieces with
  | [piece] =>
    if piece.start ≤ 1/1000 ∧ |piece.speed - 1| < 1/100 then ([], inputLabel)
    else buildAudioPiecesCore inputLabel [piece] pre
  | _ => buildAudioPiecesCore inputLabel pieces pre

/-- export/mod.rs `apply_audio_offset` (lines 376-400). -/
def apply_audio_offset (inputLabel : String) (offset_ms : ℤ) (pre : String) :
    List String × String :=
  if offset_ms = 0 then ([], inputLabel)
  else if 0 < offset_ms then
    ([inputLabel ++ "adelay=" ++ intToString offset_ms ++ "|" ++ intToString offset_ms ++
      "[" ++ pre ++ "offset]"], "[" ++ pre ++ "offset]")
  else
    ([inputLabel ++ "atrim=start=" ++ formatFixed 6 ((offset_ms.natAbs : ℚ) / 1000) ++
      ",asetpts=PTS-STARTPTS" ++ "[" ++ pre ++ "offset]"], "[" ++ pre ++ "offset]")

/-- export/mod.rs `apply_audio_gain` (lines 402-415): returns the updated
filter list (the source mutates it through `&mut`) and the output label. -/
def apply_audio_gain (filterParts : List String) (inputLabel : String) (volume : ℚ)
    (outputLabel : String) : List String × String :=
  if |min (max volume 0) 2 - 1| < 1/100 then (filterParts, inputLabel)
  else
    (filterParts ++ [inputLabel ++ "volume=" ++ formatFixed 3 (min (max volume 0) 2) ++
      "[" ++ outputLabel ++ "]"], "[" ++ outputLabel ++ "]")

/-- C9: with exactly one piece starting at most `0.001` into the source
and speed within `0.01` of 1, `build_audio_timeline_filter` emits no
filter and passes the input label through; for any other nonempty piece
list it emits at least one filter and returns a label different from the
input (the generated labels are `[<prefix><index>]` / `[<prefix>out]`,
which the hypotheses require the caller's input label not to collide
with - the source's call sites use the input labels `[0:a]` and
`[amicoffset]` against the prefixes `ascreen` and `amicpiece`, which
cannot collide). -/
theorem claim9_audio_short_circuit (inputLabel pre : String) (pieces : List TimelinePiece) :
    (∀ piece, pieces = [piece] → piece.start ≤ 1/1000 → |piece.speed - 1| < 1/100 →
      build_audio_timeline_filter inputLabel pieces pre = ([], inputLabel)) ∧
    (pieces ≠ [] →
      (∀ piece, pieces = [piece] → ¬(piece.start ≤ 1/1000 ∧ |piece.speed - 1| < 1/100)) →
      inputLabel ≠ "[" ++ pre ++ "0]" → inputLabel ≠ "[" ++ pre ++ "out]" →
      (build_audio_timeline_filter inputLabel pieces pre).1 ≠ [] ∧
      (build_audio_timeline_filter inputLabel pieces pre).2 ≠ inputLabel) := by
  have hnat0 : natToString 0 = "0" := by decide
  have hlbl0 : audioPieceLabel pre 0 = "[" ++ pre ++ "0]" := by
    unfold audioPieceLabel
    rw [hnat0, String.append_assoc]
    rfl
  cases pieces with
  | nil =>
    constructor
    · intro piece h
      exact absurd h (by simp)
    · intro h
      exact absurd rfl h
  | cons p rest =>
    cases rest with
    | nil =>
      constructor
      · intro piece heq h1 h2
        have hp : p = piece := by
          injection heq
        subst hp
        show (if p.start ≤ 1/1000 ∧ |p.speed - 1| < 1/100 then (([] : List String), inputLabel)
          else buildAudioPiecesCore inputLabel [p] pre) = ([], inputLabel)
        rw [if_pos ⟨h1, h2⟩]
      · intro _ hnc hne0 _
        have hcond : ¬(p.start ≤ 1/1000 ∧ |p.speed - 1| < 1/100) := hnc p rfl
        have hstep : build_audio_timeline_filter inputLabel [p] pre
            = buildAudioPiecesCore inputLabel [p] pre := by
          show (if p.start ≤ 1/1000 ∧ |p.speed - 1| < 1/100 then (([] : List String), inputLabel)
            else buildAudioPiecesCore inputLabel [p] pre) = _
          rw [if_neg hcond]
        have hcore : buildAudioPiecesCore inputLabel [p] pre
            = ([audioPieceFilter inputLabel p (audioPieceLabel pre 0)],
              audioPieceLabel pre 0) := rfl
        rw [hstep, hcore]
        exact ⟨by simp, by rw [hlbl0]; exact Ne.symm hne0⟩
    | cons q rest' =>
      constructor
      · intro piece heq
        exact absurd heq (by simp)
      · intro _ _ _ hneOut
        have hstep : build_audio_timeline_filter inputLabel (p :: q :: rest') pre
            = buildAudioPiecesCore inputLabel (p :: q :: rest') pre := rfl
        have hlen : ¬ ((List.range (p :: q :: rest').length).map (audioPieceLabel pre)).length
            = 1 := by simp
        rw [hstep]
        unfold buildAudioPiecesCore
        rw [if_neg hlen]
        constructor
        · simp
        · exact Ne.symm hneOut

/-- Witness for C9 at a concrete piece list, prefix and input label. -/
theorem claim9_audio_short_circuit_witness :
    (build_audio_timeline_filter "[0:a]" [⟨5, 15, 1, none⟩] "ascreen").1 ≠ [] ∧
    (build_audio_timeline_filter "[0:a]" [⟨5, 15, 1, none⟩] "ascreen").2 ≠ "[0:a]" := by
  have h := (claim9_audio_short_circuit "[0:a]" "ascreen" [⟨5, 15, 1, none⟩]).2
    (by simp)
    (fun piece heq => by
      injection heq with h1 _
      rw [← h1]
      intro hc
      norm_num at hc)
    (by decide)
    (by decide)
  exact h

/-! ## Validation (export/mod.rs lines 149-198) -/

/-- The camera-file check of `validate_export_inputs`. -/
def validate_camera (p : Project) (env : ProbeEnv) : Except String Unit :=
  match p.camera_video_path with
  | some cp =>
    if env.fileExists cp then Except.ok ()
    else Except.error ("Camera recording file does not exist: " ++ cp)
  | none => Except.ok ()

/-- The microphone-file check of `validate_export_inputs`. -/
def validate_microphone (p : Project) (env : ProbeEnv) : Except String Unit :=
  match p.microphone_audio_path with
  | some mp =>
    if env.fileExists mp then Except.ok ()
    else Except.error ("Microphone recording file does not exist: " ++ mp)
  | none => Except.ok ()

/-- `project.microphone_audio_path.map(Path::exists).unwrap_or(false)`. -/
def has_microphone_audio (p : Project) (env : ProbeEnv) : Bool :=
  match p.microphone_audio_path with
  | some mp => env.fileExists mp
  | none => false

/-- export/mod.rs `validate_export_inputs` (lines 149-198), with the
sequence of early returns written as a nested conditional chain. -/
def validate_export_inputs (p : Project) (options : ExportOptions) (env : ProbeEnv) :
    Except String Unit :=
  if !(env.fileExists p.screen_video_path) then
    Except.error ("Screen recording file does not exist: " ++ p.screen_video_path)
  else match validate_camera p env with
  | Except.error e => Except.error e
  | Except.ok _ =>
    match validate_microphone p env with
    | Except.error e => Except.error e
    | Except.ok _ =>
      if p.edits.segments.all (fun sg => !sg.enabled) then
        Except.error ("No enabled timeline segments to export")
      else if (options.format = ExportFormat.wav ∨ options.format = ExportFormat.mp3) ∧
          env.hasAudioStream p.screen_video_path = false ∧
          has_microphone_audio p env = false then
        Except.error ("Audio export requires at least one audio source (system or microphone)")
      else Except.ok ()

theorem validate_camera_ok_iff (p : Project) (env : ProbeEnv) :
    validate_camera p env = Except.ok () ↔
      (∀ cp, p.camera_video_path = some cp → env.fileExists cp = true) := by
  unfold validate_camera
  cases hc : p.camera_video_path with
  | none => simp
  | some cp =>
    by_cases h : env.fileExists cp
    · simp [h]
    · simp [h]

theorem validate_microphone_ok_iff (p : Project) (env : ProbeEnv) :
    validate_microphone p env = Except.ok () ↔
      (∀ mp, p.microphone_audio_path = some mp → env.fileExists mp = true) := by
  unfold validate_microphone
  cases hm : p.microphone_audio_path with
  | none => simp
  | some mp =>
    by_cases h : env.fileExists mp
    · simp [h]
    · simp [h]

theorem has_microphone_audio_false_iff (p : Project) (env : ProbeEnv) :
    has_microphone_audio p env = false ↔
      (∀ mp, p.microphone_audio_path = some mp → env.fileExists mp = false) := by
  unfold has_microphone_audio
  cases p.microphone_audio_path <;> simp

/-- C8: `validate_export_inputs` fails exactly when one of the five
conditions holds - missing screen file, missing referenced camera file,
missing referenced microphone file, no enabled segment, or an audio-only
format with neither screen audio nor a referenced microphone file - and
the checks run in that order (the returned message is the first failing
check's); otherwise it returns Ok. -/
theorem claim8_validate_spec (p : Project) (opts : ExportOptions) (env : ProbeEnv) :
    ((validate_export_inputs p opts env = Except.ok ()) ↔
      ¬(env.fileExists p.screen_video_path = false ∨
        (∃ cp, p.camera_video_path = some cp ∧ env.fileExists cp = false) ∨
        (∃ mp, p.microphone_audio_path = some mp ∧ env.fileExists mp = false) ∨
        (∀ sg ∈ p.edits.segments, sg.enabled = false) ∨
        ((opts.format = ExportFormat.wav ∨ opts.format = ExportFormat.mp3) ∧
          env.hasAudioStream p.screen_video_path = false ∧
          (∀ mp, p.microphone_audio_path = some mp → env.fileExists mp = false)))) ∧
    (env.fileExists p.screen_video_path = false →
      validate_export_inputs p opts env =
        Except.error ("Screen recording file does not exist: " ++ p.screen_video_path)) ∧
    (env.fileExists p.screen_video_path = true →
      ∀ cp, p.camera_video_path = some cp → env.fileExists cp = false →
      validate_export_inputs p opts env =
        Except.error ("Camera recording file does not exist: " ++ cp)) ∧
    (env.fileExists p.screen_video_path = true →
      validate_camera p env = Except.ok () →
      ∀ mp, p.microphone_audio_path = some mp → env.fileExists mp = false →
      validate_export_inputs p opts env =
        Except.error ("Microphone recording file does not exist: " ++ mp)) ∧
    (env.fileExists p.screen_video_path = true →
      validate_camera p env = Except.ok () →
      validate_microphone p env = Except.ok () →
      (∀ sg ∈ p.edits.segments, sg.enabled = false) →
      validate_export_inputs p opts env =
        Except.error ("No enabled timeline segments to export")) ∧
    (env.fileExists p.screen_video_path = true →
      validate_camera p env = Except.ok () →
      validate_microphone p env = Except.ok () →
      ¬(∀ sg ∈ p.edits.segments, sg.enabled = false) →
      (opts.format = ExportFormat.wav ∨ opts.format = ExportFormat.mp3) →
      env.hasAudioStream p.screen_video_path = false →
      (∀ mp, p.microphone_audio_path = some mp → env.fileExists mp = false) →
      validate_export_inputs p opts env =
        Except.error ("Audio export requires at least one audio source (system or microphone)")) := by
  have hall_iff : (p.edits.segments.all (fun sg => !sg.enabled) = true) ↔
      (∀ sg ∈ p.edits.segments, sg.enabled = false) := by
    simp [List.all_eq_true]
  have ord1 : env.fileExists p.screen_video_path = false →
      validate_export_inputs p opts env =
        Except.error ("Screen recording file does not exist: " ++ p.screen_video_path) := by
    intro h
    unfold validate_export_inputs
    rw [h]
    rfl
  have cam_err : env.fileExists p.screen_video_path = true → ∀ e,
      validate_camera p env = Except.error e →
      validate_export_inputs p opts env = Except.error e := by
    intro hs e he
    unfold validate_export_inputs
    rw [hs, he]
    rfl
  have ord2 : env.fileExists p.screen_video_path = true →
      ∀ cp, p.camera_video_path = some cp → env.fileExists cp = false →
      validate_export_inputs p opts env =
        Except.error ("Camera recording file does not exist: " ++ cp) := by
    intro hs cp hcp hce
    exact cam_err hs _ (by simp [validate_camera, hcp, hce])
  have mic_err : env.fileExists p.screen_video_path = true →
      validate_camera p env = Except.ok () → ∀ e,
      validate_microphone p env = Except.error e →
      validate_export_inputs p opts env = Except.error e := by
    intro hs hcam e he
    unfold validate_export_inputs
    rw [hs, hcam, he]
    rfl
  have ord3 : env.fileExists p.screen_video_path = true →
      validate_camera p env = Except.ok () →
      ∀ mp, p.microphone_audio_path = some mp → env.fileExists mp = false →
      validate_export_inputs p opts env =
        Except.error ("Microphone recording file does not exist: " ++ mp) := by
    intro hs hcam mp hmp hme
    exact mic_err hs hcam _ (by simp [validate_microphone, hmp, hme])
  have ord4 : env.fileExists p.screen_video_path = true →
      validate_camera p env = Except.ok () →
      validate_microphone p env = Except.ok () →
      (∀ sg ∈ p.edits.segments, sg.enabled = false) →
      validate_export_inputs p opts env =
        Except.error ("No enabled timeline segments to export") := by
    intro hs hcam hmic hdis
    have hred : validate_export_inputs p opts env =
        (if p.edits.segments.all (fun sg => !sg.enabled) then
          Except.error ("No enabled timeline segments to export")
        else if (opts.format = ExportFormat.wav ∨ opts.format = ExportFormat.mp3) ∧
            env.hasAudioStream p.screen_video_path = false ∧
            has_microphone_audio p env = false then
          Except.error ("Audio export requires at least one audio source (system or microphone)")
        else Except.ok ()) := by
      unfold validate_export_inputs
      rw [hs, hcam, hmic]
      rfl
    rw [hred, if_pos (hall_iff.mpr hdis)]
  have ord5 : env.fileExists p.screen_video_path = true →
      validate_camera p env = Except.ok () →
      validate_microphone p env = Except.ok () →
      ¬(∀ sg ∈ p.edits.segments, sg.enabled = false) →
      (opts.format = ExportFormat.wav ∨ opts.format = ExportFormat.mp3) →
      env.hasAudioStream p.screen_video_path = false →
      (∀ mp, p.microphone_audio_path = some mp → env.fileExists mp = false) →
      validate_export_inputs p opts env =
        Except.error
          ("Audio export requires at least one audio source (system or microphone)") := by
    intro hs hcam hmic hen hfmt hsa hmicf
    have hred : validate_export_inputs p opts env =
        (if p.edits.segments.all (fun sg => !sg.enabled) then
          Except.error ("No enabled timeline segments to export")
        else if (opts.format = ExportFormat.wav ∨ opts.format = ExportFormat.mp3) ∧
            env.hasAudioStream p.screen_video_path = false ∧
            has_microphone_audio p env = false then
          Except.error ("Audio export requires at least one audio source (system or microphone)")
        else Except.ok ()) := by
      unfold validate_export_inputs
      rw [hs, hcam, hmic]
      rfl
    rw [hred, if_neg (fun hc => hen (hall_iff.mp hc)),
      if_pos ⟨hfmt, hsa, (has_microphone_audio_false_iff p env).mpr hmicf⟩]
  have okform : env.fileExists p.screen_video_path = true →
      validate_camera p env = Except.ok () →
      validate_microphone p env = Except.ok () →
      ¬(∀ sg ∈ p.edits.segments, sg.enabled = false) →
      ¬((opts.format = ExportFormat.wav ∨ opts.format = ExportFormat.mp3) ∧
        env.hasAudioStream p.screen_video_path = false ∧
        has_microphone_audio p env = false) →
      validate_export_inputs p opts env = Except.ok () := by
    intro hs hcam hmic hen hc
    have hred : validate_export_inputs p opts env =
        (if p.edits.segments.all (fun sg => !sg.enabled) then
          Except.error ("No enabled timeline segments to export")
        else if (opts.format = ExportFormat.wav ∨ opts.format = ExportFormat.mp3) ∧
            env.hasAudioStream p.screen_video_path = false ∧
            has_microphone_audio p env = false then
          Except.error ("Audio export requires at least one audio source (system or microphone)")
        else Except.ok ()) := by
      unfold validate_export_inputs
      rw [hs, hcam, hmic]
      rfl
    rw [hred, if_neg (fun hcc => hen (hall_iff.mp hcc)), if_neg hc]
  refine ⟨?_, ord1, ord2, ord3, ord4, ord5⟩
  constructor
  · intro hok hdisj
    rcases hdisj with h | h | h | h | h
    · rw [ord1 h] at hok
      exact Except.noConfusion hok
    · obtain ⟨cp, hcp, hce⟩ := h
      cases hsc : env.fileExists p.screen_video_path with
      | false =>
        rw [ord1 hsc] at hok
        exact Except.noConfusion hok
      | true =>
        rw [ord2 hsc cp hcp hce] at hok
        exact Except.noConfusion hok
    · obtain ⟨mp, hmp, hme⟩ := h
      cases hsc : env.fileExists p.screen_video_path with
      | false =>
        rw [ord1 hsc] at hok
        exact Except.noConfusion hok
      | true =>
        cases hcam : validate_camera p env with
        | error e =>
          rw [cam_err hsc e hcam] at hok
          exact Except.noConfusion hok
        | ok u =>
          rw [ord3 hsc (by rw [hcam]) mp hmp hme] at hok
          exact Except.noConfusion hok
    · cases hsc : env.fileExists p.screen_video_path with
      | false =>
        rw [ord1 hsc] at hok
        exact Except.noConfusion hok
      | true =>
        cases hcam : validate_camera p env with
        | error e =>
          rw [cam_err hsc e hcam] at hok
          exact Except.noConfusion hok
        | ok u =>
          cases hmic : validate_microphone p env with
          | error e =>
            rw [mic_err hsc (by rw [hcam]) e hmic] at hok
            exact Except.noConfusion hok
          | ok v =>
            rw [ord4 hsc (by rw [hcam]) (by rw [hmic]) h] at hok
            exact Except.noConfusion hok
    · obtain ⟨hfmt, hsa, hmicf⟩ := h
      cases hsc : env.fileExists p.screen_video_path with
      | false =>
        rw [ord1 hsc] at hok
        exact Except.noConfusion hok
      | true =>
        cases hcam : validate_camera p env with
        | error e =>
          rw [cam_err hsc e hcam] at hok
          exact Except.noConfusion hok
        | ok u =>
          cases hmic : validate_microphone p env with
          | error e =>
            rw [mic_err hsc (by rw [hcam]) e hmic] at hok
            exact Except.noConfusion hok
          | ok v =>
            by_cases hdis : ∀ sg ∈ p.edits.segments, sg.enabled = false
            · rw [ord4 hsc (by rw [hcam]) (by rw [hmic]) hdis] at hok
              exact Except.noConfusion hok
            · rw [ord5 hsc (by rw [hcam]) (by rw [hmic]) hdis hfmt hsa hmicf] at hok
              exact Except.noConfusion hok
  · intro hnd
    push_neg at hnd
    obtain ⟨h1, h2, h3, h4, h5⟩ := hnd
    have hs : env.fileExists p.screen_video_path = true := by
      cases hv : env.fileExists p.screen_video_path with
      | false => exact absurd hv h1
      | true => rfl
    have hcam : validate_camera p env = Except.ok () := by
      rw [validate_camera_ok_iff]
      intro cp hcp
      cases hv : env.fileExists cp with
      | false => exact absurd hv (h2 cp hcp)
      | true => rfl
    have hmic : validate_microphone p env = Except.ok () := by
      rw [validate_microphone_ok_iff]
      intro mp hmp
      cases hv : env.fileExists mp with
      | false => exact absurd hv (h3 mp hmp)
      | true => rfl
    have hen : ¬(∀ sg ∈ p.edits.segments, sg.enabled = false) := by
      intro hc
      obtain ⟨sg, hsg, hval⟩ := h4
      exact hval (hc sg hsg)
    refine okform hs hcam hmic hen ?_
    intro ⟨ha, hb, hc⟩
    obtain ⟨mp', hmp'⟩ := h5 ha hb
    rw [has_microphone_audio_false_iff] at hc
    exact hmp'.2 (hc mp' hmp'.1)

/-- Witness for C8 at a concrete environment with a missing screen file. -/
theorem claim8_validate_spec_witness :
    validate_export_inputs pW4 ⟨ExportFormat.mp4, 30, CompressionPreset.social,
        ResolutionPreset.p1080⟩ ⟨fun _ => false, fun _ => false⟩ =
      Except.error ("Screen recording file does not exist: " ++ pW4.screen_video_path) :=
  (claim8_validate_spec pW4 ⟨ExportFormat.mp4, 30, CompressionPreset.social,
    ResolutionPreset.p1080⟩ ⟨fun _ => false, fun _ => false⟩).2.1 rfl

/-! ## Video chain builder and command assembler
(export/mod.rs lines 417-560 and 563-999) -/

/-- export/mod.rs `append_zoom_piece_filter` (lines 417-426). -/
def append_zoom_piece_filter (filter : String) (zoom : ActiveZoom) (width height : ℕ) : String :=
  filter ++ ",crop=w=iw/" ++ formatFixed 6 (max zoom.scale (101/100)) ++
    ":h=ih/" ++ formatFixed 6 (max zoom.scale (101/100)) ++
    ":x=\x27(iw-iw/" ++ formatFixed 6 (max zoom.scale (101/100)) ++ ")/2+" ++
    formatFixed 3 zoom.x ++
    "\x27:y=\x27(ih-ih/" ++ formatFixed 6 (max zoom.scale (101/100)) ++ ")/2+" ++
    formatFixed 3 zoom.y ++
    "\x27,scale=" ++ natToString width ++ ":" ++ natToString height

/-- export/mod.rs `build_camera_overlay_coordinates` (lines 428-441). -/
def build_camera_overlay_coordinates (p : Project) : String :=
  match p.edits.camera_overlay.position with
  | CameraOverlayPosition.topLeft =>
    natToString p.edits.camera_overlay.margin ++ ":" ++ natToString p.edits.camera_overlay.margin
  | CameraOverlayPosition.topRight =>
    "W-w-" ++ natToString p.edits.camera_overlay.margin ++ ":" ++
      natToString p.edits.camera_overlay.margin
  | CameraOverlayPosition.bottomLeft =>
    natToString p.edits.camera_overlay.margin ++ ":H-h-" ++
      natToString p.edits.camera_overlay.margin
  | CameraOverlayPosition.bottomRight =>
    "W-w-" ++ natToString p.edits.camera_overlay.margin ++ ":H-h-" ++
      natToString p.edits.camera_overlay.margin
  | CameraOverlayPosition.custom =>
    "(W-w)*" ++ formatFixed 6 (min (max p.edits.camera_overlay.custom_x 0) 1) ++
      ":(H-h)*" ++ formatFixed 6 (min (max p.edits.camera_overlay.custom_y 0) 1)

/-- export/mod.rs `escape_drawtext_text` (lines 443-451). -/
def escape_drawtext_text (value : String) : String :=
  (((((value.replace ("\\") ("\\\\")).replace (":") ("\\:")).replace
    ("\x27") ("\\\x27")).replace (",") ("\\,")).replace ("%") ("\\%")).replace
    ("\n") ("\\n")

/-- One step of the `apply_video_annotations` loop (export/mod.rs lines
458-512), indexed by the annotation's position in the list. -/
def annotStep (p : Project) (acc : List String × String) (ia : ℕ × Annot) :
    List String × String :=
  if (min ia.2.end_time p.duration) - (max ia.2.start_time 0) ≤ 1/100 then acc
  else
    let nextLabel := "[vannot" ++ natToString ia.1 ++ "]"
    let boxFilter := acc.2 ++ "drawbox=x=iw*" ++ formatFixed 6 (min (max ia.2.x 0) 1) ++
      ":y=ih*" ++ formatFixed 6 (min (max ia.2.y 0) 1) ++
      ":w=iw*" ++ formatFixed 6 (min (max ia.2.width (2/100)) 1) ++
      ":h=ih*" ++ formatFixed 6 (min (max ia.2.height (2/100)) 1) ++
      ":color=" ++ String.mk (ia.2.color.data.filter (fun c => !c.isWhitespace)) ++ "@" ++
      formatFixed 3 (min (max ia.2.opacity (1/10)) 1) ++
      ":t=" ++ natToString (max ia.2.thickness 1) ++
      ":enable=\x27between(t," ++ formatFixed 6 (max ia.2.start_time 0) ++ "," ++
      formatFixed 6 (min ia.2.end_time p.duration) ++ ")\x27" ++ nextLabel
    match ia.2.text with
    | some t =>
      if t.trim = emptyString then (acc.1 ++ [boxFilter], nextLabel)
      else
        (acc.1 ++ [boxFilter] ++
          [nextLabel ++ "drawtext=text=\x27" ++ escape_drawtext_text t.trim ++
            "\x27:x=iw*" ++ formatFixed 6 (min (max ia.2.x 0) 1) ++
            "+10:y=ih*" ++ formatFixed 6 (min (max ia.2.y 0) 1) ++
            "+10:fontsize=28:fontcolor=white@" ++
            formatFixed 3 (min (max ia.2.opacity (1/10)) 1) ++
            ":box=1:boxcolor=black@0.35:enable=\x27between(t," ++
            formatFixed 6 (max ia.2.start_time 0) ++ "," ++
            formatFixed 6 (min ia.2.end_time p.duration) ++ ")\x27" ++
            "[vannottxt" ++ natToString ia.1 ++ "]"],
          "[vannottxt" ++ natToString ia.1 ++ "]")
    | none => (acc.1 ++ [boxFilter], nextLabel)

/-- export/mod.rs `apply_video_annotations` (lines 453-515). -/
def apply_video_annotations (filterParts : List String) (label : String) (p : Project) :
    List String × String :=
  p.edits.annotations.enum.foldl (annotStep p) (filterParts, label)

/-- export/mod.rs `build_annotation_drawbox_chain` (lines 517-560). -/
def build_annotation_drawbox_chain (p : Project) : String :=
  String.join (p.edits.annotations.filterMap (fun a =>
    if (min a.end_time p.duration) - (max a.start_time 0) ≤ 1/100 then none
    else some (
      ",drawbox=x=iw*" ++ formatFixed 6 (min (max a.x 0) 1) ++
      ":y=ih*" ++ formatFixed 6 (min (max a.y 0) 1) ++
      ":w=iw*" ++ formatFixed 6 (min (max a.width (2/100)) 1) ++
      ":h=ih*" ++ formatFixed 6 (min (max a.height (2/100)) 1) ++
      ":color=" ++ String.mk (a.color.data.filter (fun c => !c.isWhitespace)) ++ "@" ++
      formatFixed 3 (min (max a.opacity (1/10)) 1) ++
      ":t=" ++ natToString (max a.thickness 1) ++
      ":enable=\x27between(t," ++ formatFixed 6 (max a.start_time 0) ++ "," ++
      formatFixed 6 (min a.end_time p.duration) ++ ")\x27" ++
      (match a.text with
        | some t =>
          if t.trim = emptyString then emptyString
          else
            ",drawtext=text=\x27" ++ escape_drawtext_text t.trim ++
            "\x27:x=iw*" ++ formatFixed 6 (min (max a.x 0) 1) ++
            "+8:y=ih*" ++ formatFixed 6 (min (max a.y 0) 1) ++
            "+8:fontsize=20:fontcolor=white@" ++
            formatFixed 3 (min (max a.opacity (1/10)) 1) ++
            ":box=1:boxcolor=black@0.35:enable=\x27between(t," ++
            formatFixed 6 (max a.start_time 0) ++ "," ++
            formatFixed 6 (min a.end_time p.duration) ++ ")\x27"
        | none => emptyString))))

/-- One per-piece video filter of the edited-timeline path
(export/mod.rs lines 622-639). -/
def zoomedPieceFilter (p : Project) (piece : TimelinePiece) (idx : ℕ) : String :=
  (match piece.zoom with
    | some z =>
      append_zoom_piece_filter
        ("[0:v]trim=start=" ++ formatFixed 6 piece.start ++ ":end=" ++
          formatFixed 6 piece.stop ++ ",setpts=(PTS-STARTPTS)/" ++ formatFixed 6 piece.speed)
        z p.resolution.width p.resolution.height
    | none =>
      "[0:v]trim=start=" ++ formatFixed 6 piece.start ++ ":end=" ++
        formatFixed 6 piece.stop ++ ",setpts=(PTS-STARTPTS)/" ++ formatFixed 6 piece.speed) ++
  "[vpiece" ++ natToString idx ++ "]"

/-- The per-piece video construction of the Mp4/Mov branch
(export/mod.rs lines 617-654): skipped entirely under input seeking and
when the timeline is unedited. -/
def videoTimelineSection (p : Project) (useInputSeeking timelineEdited : Bool)
    (pieces : List TimelinePiece) (filterParts : List String) (label : String) :
    List String × String :=
  if useInputSeeking then (filterParts, label)
  else if timelineEdited then
    if ((List.range pieces.length).map (fun i => "[vpiece" ++ natToString i ++ "]")).length
        = 1 then
      (filterParts ++ pieces.enum.map (fun ip => zoomedPieceFilter p ip.2 ip.1),
        ((List.range pieces.length).map
          (fun i => "[vpiece" ++ natToString i ++ "]")).headD emptyString)
    else
      (filterParts ++ pieces.enum.map (fun ip => zoomedPieceFilter p ip.2 ip.1) ++
        [String.join ((List.range pieces.length).map
            (fun i => "[vpiece" ++ natToString i ++ "]")) ++
          "concat=n=" ++ natToString pieces.length ++ ":v=1:a=0[vconcat]"],
        "[vconcat]")
  else (filterParts, label)

/-- The camera-overlay section of the Mp4/Mov branch
(export/mod.rs lines 656-692). -/
def cameraSection (p : Project) (filterParts : List String) (label : String) :
    List String × String :=
  match p.camera_video_path with
  | none => (filterParts, label)
  | some _ =>
    (filterParts ++
      [(if 0 < p.camera_offset_ms.getD 0 then
          "[1:v]setpts=PTS+" ++ formatFixed 6 ((p.camera_offset_ms.getD 0 : ℚ) / 1000) ++
            "/TB," ++ "scale=iw*" ++ displayQ (max p.edits.camera_overlay.scale (1/10)) ++
            ":ih*" ++ displayQ (max p.edits.camera_overlay.scale (1/10)) ++ "[cam]"
        else if p.camera_offset_ms.getD 0 < 0 then
          "[1:v]trim=start=" ++
            formatFixed 6 (((p.camera_offset_ms.getD 0).natAbs : ℚ) / 1000) ++
            ",setpts=PTS-STARTPTS," ++ "scale=iw*" ++
            displayQ (max p.edits.camera_overlay.scale (1/10)) ++
            ":ih*" ++ displayQ (max p.edits.camera_overlay.scale (1/10)) ++ "[cam]"
        else
          "[1:v]scale=iw*" ++ displayQ (max p.edits.camera_overlay.scale (1/10)) ++
            ":ih*" ++ displayQ (max p.edits.camera_overlay.scale (1/10)) ++ "[cam]")] ++
      [label ++ "[cam]overlay=" ++ build_camera_overlay_coordinates p ++ "[vwithcam]"],
      "[vwithcam]")

/-- The shared audio-chain block (export/mod.rs lines 697-758; the source
repeats this block verbatim in the Wav/Mp3 branch, lines 886-947). -/
def audioSection (p : Project) (pieces : List TimelinePiece) (screenHasAudio : Bool)
    (micIndex : Option ℕ) (filterParts : List String) : List String × Option String :=
  let sa :=
    if screenHasAudio then
      let af := build_audio_timeline_filter ("[0:a]") pieces ("ascreen")
      let ag := apply_audio_gain (filterParts ++ af.1) af.2
        p.edits.audio_mix.system_volume ("ascreenvol")
      (ag.1, some ag.2)
    else (filterParts, (none : Option String))
  let ma :=
    match micIndex with
    | some idx =>
      let ofs := apply_audio_offset ("[" ++ natToString idx ++ ":a]")
        (p.microphone_offset_ms.getD 0) ("amic")
      let mf := build_audio_timeline_filter ofs.2 pieces ("amicpiece")
      let withHp := sa.1 ++ ofs.1 ++ mf.1 ++ [mf.2 ++ "highpass=f=80[amicclean]"]
      let mg := apply_audio_gain withHp ("[amicclean]")
        p.edits.audio_mix.microphone_volume ("amicvol")
      (mg.1, some mg.2)
    | none => (sa.1, (none : Option String))
  match sa.2, ma.2 with
  | some sl, some ml =>
    (ma.1 ++
      [sl ++ ml ++ "sidechaincompress=threshold=0.025:ratio=8:attack=20:release=300[aducked]"] ++
      ["[aducked]" ++ ml ++ "amix=inputs=2:duration=longest:dropout_transition=0[aout]"],
      some ("[aout]"))
  | some sl, none => (ma.1, some sl)
  | none, some ml => (ma.1, some ml)
  | none, none => (ma.1, none)

/-- Rust `trim_start_matches(\x27[\x27).trim_end_matches(\x27]\x27)` on a label. -/
def stripStreamBrackets (lbl : String) : String :=
  String.mk (((lbl.data.dropWhile (fun c => c == '[')).reverse.dropWhile
    (fun c => c == ']')).reverse)

/-- The repeated `starts_with('[') && ends_with(":a]") && len() >= 5` test
on an audio label (export/mod.rs lines 828-830; label strings are ASCII, so
byte length equals character count). -/
def isBracketAudioForm (lbl : String) : Bool :=
  lbl.startsWith ("[") && lbl.endsWith (":a]") && decide (5 ≤ lbl.length)

/-- Audio `-map`/`-an` argument selection of the Mp4/Mov branch
(export/mod.rs lines 823-853). `filterPartsNonempty` reflects
`!filter_parts.is_empty()` at that point. -/
def mp4AudioMapArgs (audioLabel : Option String) (filterPartsNonempty screenHasAudio : Bool) :
    List String :=
  match audioLabel with
  | some lbl =>
    if filterPartsNonempty then
      ["-map"] ++
      [if lbl = "[0:a]" then "0:a?"
       else if isBracketAudioForm lbl then stripStreamBrackets lbl
       else lbl]
    else if lbl = "[0:a]" then ["-map", "0:a?"]
    else if isBracketAudioForm lbl then ["-map", stripStreamBrackets lbl]
    else []
  | none =>
    if filterPartsNonempty then ["-an"]
    else if screenHasAudio then ["-map", "0:a?"]
    else []

/-- Video/audio codec and frame-rate arguments of the Mp4/Mov branch
(export/mod.rs lines 771-809). `macos` reflects `cfg!(target_os = "macos")`. -/
def mp4MovCodecArgs (opts : ExportOptions) (macos : Bool) : List String :=
  ["-c:v"] ++
  (if opts.format = ExportFormat.mov then
    ["prores_ks", "-profile:v", "3", "-pix_fmt", "yuv422p10le"]
  else
    (if macos then
      ["h264_videotoolbox", "-b:v", natToString (target_video_bitrate_kbps opts) ++ "k",
        "-allow_sw", "1"]
    else
      ["libx264", "-crf", natToString opts.compression.crf, "-preset",
        opts.compression.presetName]) ++
    ["-pix_fmt", "yuv420p"]) ++
  ["-c:a"] ++
  (if opts.format = ExportFormat.mov then ["pcm_s16le"]
   else ["aac", "-b:a", natToString opts.compression.audio_bitrate ++ "k"]) ++
  ["-r", natToString opts.frame_rate]

/-- The whole Mp4/Mov arm of `build_ffmpeg_args` (export/mod.rs lines
613-854), producing the format-specific argument run. -/
def mp4MovBranch (p : Project) (opts : ExportOptions) (macos : Bool)
    (screenHasAudio : Bool) (micIndex : Option ℕ) (useInputSeeking timelineEdited : Bool)
    (pieces : List TimelinePiece) : List String :=
  let v1 := videoTimelineSection p useInputSeeking timelineEdited pieces [] ("[0:v]")
  let v2 := cameraSection p v1.1 v1.2
  let v3 := apply_video_annotations v2.1 v2.2 p
  let a4 := audioSection p pieces screenHasAudio micIndex v3.1
  mp4MovCodecArgs opts macos ++
  (if a4.1.isEmpty then
    ["-vf", "scale=-2:" ++ natToString opts.resolution.height, "-map", "0:v"]
  else
    ["-filter_complex",
      String.intercalate (";")
        (a4.1 ++ [v3.2 ++ "scale=-2:" ++ natToString opts.resolution.height ++ "[vout]"]),
      "-map", "[vout]"]) ++
  mp4AudioMapArgs a4.2 (!a4.1.isEmpty) screenHasAudio

/-- The Gif arm of `build_ffmpeg_args` (export/mod.rs lines 855-882). -/
def gifBranch (p : Project) (opts : ExportOptions) : List String :=
  match p.camera_video_path with
  | some _ =>
    ["-filter_complex",
      "[1:v]scale=iw*" ++ displayQ (max p.edits.camera_overlay.scale (1/10)) ++
      ":ih*" ++ displayQ (max p.edits.camera_overlay.scale (1/10)) ++
      "[cam];[0:v][cam]overlay=" ++ build_camera_overlay_coordinates p ++
      build_annotation_drawbox_chain p ++
      ",fps=" ++ natToString (min opts.frame_rate 30) ++
      ",scale=-1:" ++ natToString (min opts.resolution.height 720) ++
      ":flags=lanczos,split[s0][s1];[s0]palettegen=stats_mode=diff[p];[s1][p]paletteuse=dither=bayer:bayer_scale=5:diff_mode=rectangle"]
  | none =>
    ["-vf",
      (if (if (build_annotation_drawbox_chain p).startsWith (",") then
            String.mk ((build_annotation_drawbox_chain p).data.drop 1)
          else build_annotation_drawbox_chain p) = emptyString then emptyString
       else
        (if (build_annotation_drawbox_chain p).startsWith (",") then
          String.mk ((build_annotation_drawbox_chain p).data.drop 1)
        else build_annotation_drawbox_chain p) ++ ",") ++
      "fps=" ++ natToString (min opts.frame_rate 30) ++
      ",scale=-1:" ++ natToString (min opts.resolution.height 720) ++
      ":flags=lanczos,split[s0][s1];[s0]palettegen=stats_mode=diff[p];[s1][p]paletteuse=dither=bayer:bayer_scale=5:diff_mode=rectangle"]

/-- The Wav/Mp3 arm of `build_ffmpeg_args` (export/mod.rs lines 883-992). -/
def wavMp3Branch (p : Project) (opts : ExportOptions) (screenHasAudio : Bool)
    (micIndex : Option ℕ) (pieces : List TimelinePiece) : List String :=
  let a := audioSection p pieces screenHasAudio micIndex []
  ["-vn"] ++
  (match opts.format with
    | ExportFormat.wav => ["-c:a", "pcm_s16le"]
    | ExportFormat.mp3 =>
      ["-c:a", "libmp3lame", "-b:a", natToString opts.compression.audio_bitrate ++ "k"]
    | _ => []) ++
  (match a.2 with
    | some lbl =>
      if !a.1.isEmpty then
        ["-filter_complex", String.intercalate (";") a.1, "-map"] ++
        [if lbl = "[0:a]" then "0:a?"
         else if isBracketAudioForm lbl then stripStreamBrackets lbl
         else lbl]
      else if lbl = "[0:a]" then ["-map", "0:a?"]
      else if isBracketAudioForm lbl then ["-map", stripStreamBrackets lbl]
      else []
    | none => [])

/-- export/mod.rs lines 579-585: the fast-path predicate. -/
def use_input_seeking (p : Project) : Bool :=
  p.camera_video_path.isNone && p.microphone_audio_path.isNone &&
  decide ((enabled_segments p).length = 1) &&
  (decide (0 < ((enabled_segments p).headD (0, 0)).1) ||
    decide (((enabled_segments p).headD (0, 0)).2 < p.duration)) &&
  !(timeline_is_edited p (build_timeline_pieces p)) &&
  p.edits.zoom.isEmpty

/-- export/mod.rs `build_ffmpeg_args` (lines 563-999). The source calls
`validate_export_inputs` and discards the result (line 568), so validation
does not influence the arguments; `macos` reflects `cfg!(target_os = "macos")`
and `env` the filesystem/ffprobe probes. -/
def build_ffmpeg_args (p : Project) (opts : ExportOptions) (outputPath : String)
    (macos : Bool) (env : ProbeEnv) : List String :=
  (if use_input_seeking p then
    ["-ss", displayQ ((enabled_segments p).headD (0, 0)).1,
     "-to", displayQ ((enabled_segments p).headD (0, 0)).2]
  else []) ++
  ["-i", p.screen_video_path] ++
  (match p.camera_video_path with
    | some cp => ["-i", cp]
    | none => []) ++
  (match p.microphone_audio_path with
    | some mp => ["-i", mp]
    | none => []) ++
  (match opts.format with
    | ExportFormat.mp4 =>
      mp4MovBranch p opts macos (env.hasAudioStream p.screen_video_path)
        (match p.microphone_audio_path with
          | some _ => some (if p.camera_video_path.isSome then 2 else 1)
          | none => none)
        (use_input_seeking p) (timeline_is_edited p (build_timeline_pieces p))
        (build_timeline_pieces p)
    | ExportFormat.mov =>
      mp4MovBranch p opts macos (env.hasAudioStream p.screen_video_path)
        (match p.microphone_audio_path with
          | some _ => some (if p.camera_video_path.isSome then 2 else 1)
          | none => none)
        (use_input_seeking p) (timeline_is_edited p (build_timeline_pieces p))
        (build_timeline_pieces p)
    | ExportFormat.gif => gifBranch p opts
    | ExportFormat.wav =>
      wavMp3Branch p opts (env.hasAudioStream p.screen_video_path)
        (match p.microphone_audio_path with
          | some _ => some (if p.camera_video_path.isSome then 2 else 1)
          | none => none)
        (build_timeline_pieces p)
    | ExportFormat.mp3 =>
      wavMp3Branch p opts (env.hasAudioStream p.screen_video_path)
        (match p.microphone_audio_path with
          | some _ => some (if p.camera_video_path.isSome then 2 else 1)
          | none => none)
        (build_timeline_pieces p)) ++
  ["-y", outputPath]

/-- C10: `build_ffmpeg_args` discards the result of `validate_export_inputs`
(the source computes it into `_`): for every project, options, platform and
probe environment — including inputs that fail validation, such as a project
with zero enabled segments — it returns a complete argument vector ending in
`-y` followed by the output path, and zero enabled segments are silently
treated as the single full-duration segment `(0, duration)`. -/
theorem claim10_validation_discarded (p : Project) (opts : ExportOptions) (out : String)
    (macos : Bool) (env : ProbeEnv) :
    (∃ front, build_ffmpeg_args p opts out macos env = front ++ ["-y", out]) ∧
    ((∀ s ∈ p.edits.segments, s.enabled = false) →
      enabled_segments p = [((0 : ℚ), p.duration)]) := by
  constructor
  · exact ⟨_, rfl⟩
  · intro h
    have hf : p.edits.segments.filter (fun s => s.enabled) = [] := by
      rw [List.filter_eq_nil_iff]
      intro s hs
      simp [h s hs]
    unfold enabled_segments
    rw [hf]
    rfl

/-- Witness for C10 at a concrete all-disabled project. -/
theorem claim10_validation_discarded_witness :
    (∃ front,
      build_ffmpeg_args
        ⟨"p10", "n", "s.mp4", none, none, none, none, 7, ⟨1920, 1080⟩,
          ⟨[⟨"sg", 1, 2, false⟩], [], [], [], camDefault, mixDefault, ccDefault⟩⟩
        ⟨ExportFormat.mp4, 30, CompressionPreset.social, ResolutionPreset.p1080⟩
        ("out.mp4") false ⟨fun _ => true, fun _ => false⟩ = front ++ ["-y", "out.mp4"]) ∧
    enabled_segments
        ⟨"p10", "n", "s.mp4", none, none, none, none, 7, ⟨1920, 1080⟩,
          ⟨[⟨"sg", 1, 2, false⟩], [], [], [], camDefault, mixDefault, ccDefault⟩⟩ =
      [((0 : ℚ), 7)] := by
  refine ⟨(claim10_validation_discarded _ _ ("out.mp4") false _).1, ?_⟩
  have := (claim10_validation_discarded
    ⟨"p10", "n", "s.mp4", none, none, none, none, 7, ⟨1920, 1080⟩,
      ⟨[⟨"sg", 1, 2, false⟩], [], [], [], camDefault, mixDefault, ccDefault⟩⟩
    ⟨ExportFormat.mp4, 30, CompressionPreset.social, ResolutionPreset.p1080⟩
    ("out.mp4") false ⟨fun _ => true, fun _ => false⟩).2
  exact this (by intro s hs; simp at hs; rw [hs])

/-! ## C1/C2: the fast seek path -/

/-- The C1 scenario: 20-second source, one enabled segment `[5,15]`, no
camera, no microphone, no effects, no annotations. -/
def pC1 : Project :=
  ⟨"idC1", "c1", "screen.mp4", none, none, none, none, 20, ⟨1920, 1080⟩,
    ⟨[⟨"s", 5, 15, true⟩], [], [], [], camDefault, mixDefault, ccDefault⟩⟩

def optsC1 : ExportOptions :=
  ⟨ExportFormat.mp4, 30, CompressionPreset.social, ResolutionPreset.p1080⟩

/-- Probe environment for C1: files exist, the screen file has no audio. -/
def envC1 : ProbeEnv := ⟨fun _ => true, fun _ => false⟩

theorem pC1_segments_eval : enabled_segments pC1 = [((5 : ℚ), (15 : ℚ))] := by
  norm_num [enabled_segments, pC1, List.insertionSort, List.orderedInsert]

theorem pC1_pieces_eval : build_timeline_pieces pC1 = [⟨5, 15, 1, none⟩] := by
  rw [build_timeline_pieces, pC1_segments_eval]
  norm_num [segment_pieces, segment_breakpoints, pC1, List.insertionSort, List.orderedInsert,
    dedupBy, dedupByGo, eps52, pairsOf, List.filterMap, piece_speed, piece_zoom, List.find?,
    List.flatMap, List.isEmpty, abs_lt]

theorem pC1_edited_eval : timeline_is_edited pC1 [⟨5, 15, 1, none⟩] = true := by
  simp only [timeline_is_edited]
  rw [decide_eq_true (by norm_num : (1:ℚ)/1000 < (5 : ℚ))]
  simp

theorem pC1_seek_eval : use_input_seeking pC1 = false := by
  rw [use_input_seeking, pC1_pieces_eval, pC1_edited_eval]
  simp

theorem formatFixed6_5 : formatFixed 6 (5 : ℚ) = "5.000000" := by
  have h : roundHalfEven (|(5:ℚ)| * (10:ℚ)^6) = 5000000 := by
    rw [roundHalfEven_eq]; norm_num
  simp only [formatFixed, h]
  norm_num
  decide

theorem formatFixed6_15 : formatFixed 6 (15 : ℚ) = "15.000000" := by
  have h : roundHalfEven (|(15:ℚ)| * (10:ℚ)^6) = 15000000 := by
    rw [roundHalfEven_eq]; norm_num
  simp only [formatFixed, h]
  norm_num
  decide

theorem formatFixed6_1 : formatFixed 6 (1 : ℚ) = "1.000000" := by
  have h : roundHalfEven (|(1:ℚ)| * (10:ℚ)^6) = 1000000 := by
    rw [roundHalfEven_eq]; norm_num
  simp only [formatFixed, h]
  norm_num
  decide

/-- Full evaluation of the argument vector at the C1 input: the code takes
the slow per-piece path. -/
theorem pC1_args_eval : build_ffmpeg_args pC1 optsC1 ("out.mp4") false envC1 =
    ["-i", "screen.mp4",
     "-c:v", "libx264", "-crf", "23", "-preset", "medium", "-pix_fmt", "yuv420p",
     "-c:a", "aac", "-b:a", "192k", "-r", "30",
     "-filter_complex",
     "[0:v]trim=start=5.000000:end=15.000000,setpts=(PTS-STARTPTS)/1.000000[vpiece0];[vpiece0]scale=-2:1080[vout]",
     "-map", "[vout]", "-an", "-y", "out.mp4"] := by
  simp only [build_ffmpeg_args, pC1_seek_eval, pC1_pieces_eval, pC1_edited_eval]
  simp only [pC1, optsC1, envC1, mp4MovBranch, videoTimelineSection, zoomedPieceFilter,
    cameraSection, apply_video_annotations, audioSection, mp4MovCodecArgs, mp4AudioMapArgs,
    formatFixed6_5, formatFixed6_15, formatFixed6_1]
  simp [formatFixed6_5, formatFixed6_15, formatFixed6_1]
  decide

/-- C1: at the claimed input (duration 20, one enabled segment `[5,15]`,
no camera, no microphone, no effects, no annotations) the produced
arguments contain no `-ss`/`-to` seek tokens and do contain
`-filter_complex`: the fast path is not taken, because
`timeline_is_edited` counts the trim itself (piece start 5 > 0.001) and
`use_input_seeking` requires the timeline to be unedited. -/
theorem claim1_fast_path_dead :
    "-ss" ∉ build_ffmpeg_args pC1 optsC1 ("out.mp4") false envC1 ∧
    "-to" ∉ build_ffmpeg_args pC1 optsC1 ("out.mp4") false envC1 ∧
    "-filter_complex" ∈ build_ffmpeg_args pC1 optsC1 ("out.mp4") false envC1 ∧
    use_input_seeking pC1 = false ∧
    timeline_is_edited pC1 (build_timeline_pieces pC1) = true := by
  refine ⟨?_, ?_, ?_, pC1_seek_eval, ?_⟩
  · rw [pC1_args_eval]; decide
  · rw [pC1_args_eval]; decide
  · rw [pC1_args_eval]; decide
  · rw [pC1_pieces_eval]; exact pC1_edited_eval

/-! ## String head lemmas: decimal renderings never collide with flag tokens -/

theorem natDigitsAux_head (fuel : ℕ) : ∀ n, 0 < fuel →
    ∃ d l, natDigitsAux fuel n = digitChar d :: l ∧ d < 10 := by
  induction fuel with
  | zero => intro n h; exact absurd h (by norm_num)
  | succ f ih =>
    intro n _
    rw [natDigitsAux]
    by_cases hn : n < 10
    · exact ⟨n, [], by rw [if_pos hn], hn⟩
    · rw [if_neg hn]
      match f, ih with
      | 0, _ => exact ⟨n % 10, [], by rw [natDigitsAux]; rfl, Nat.mod_lt _ (by norm_num)⟩
      | f' + 1, ih =>
        obtain ⟨d, l, hh, hd⟩ := ih (n / 10) (Nat.succ_pos f')
        exact ⟨d, l ++ [digitChar (n % 10)], by rw [hh]; rfl, hd⟩

theorem natToString_data (n : ℕ) :
    ∃ d l, (natToString n).data = digitChar d :: l ∧ d < 10 := by
  obtain ⟨d, l, hh, hd⟩ := natDigitsAux_head (n + 1) n (Nat.succ_pos n)
  exact ⟨d, l, by rw [natToString, hh], hd⟩

theorem ne_fc_of_head (s : String) (c : Char) (l : List Char)
    (h : s.data = c :: l) (hc : c ≠ '-') : s ≠ "-filter_complex" := by
  intro he
  rw [he] at h
  have h1 : ("-filter_complex".data).head? = some c := by rw [h]; rfl
  have h2 : ("-filter_complex".data).head? = some '-' := by decide
  rw [h2] at h1
  exact hc (Option.some.inj h1).symm

theorem ne_fc_of_second (s : String) (c : Char) (l : List Char)
    (h : s.data = '-' :: c :: l) (hc : c ≠ 'f') : s ≠ "-filter_complex" := by
  intro he
  rw [he] at h
  have h1 : ("-filter_complex".data).tail.head? = some c := by rw [h]; rfl
  have h2 : ("-filter_complex".data).tail.head? = some 'f' := by decide
  rw [h2] at h1
  exact hc (Option.some.inj h1).symm

theorem digitChar_ne_dash (d : ℕ) (hd : d < 10) : digitChar d ≠ '-' := by
  interval_cases d <;> decide

theorem digitChar_ne_f (d : ℕ) (hd : d < 10) : digitChar d ≠ 'f' := by
  interval_cases d <;> decide

theorem fc_ne_natToString (n : ℕ) : ("-filter_complex" : String) ≠ natToString n := by
  obtain ⟨d, l, hh, hd⟩ := natToString_data n
  exact (ne_fc_of_head _ _ _ hh (digitChar_ne_dash d hd)).symm

theorem fc_ne_natToString_k (n : ℕ) :
    ("-filter_complex" : String) ≠ natToString n ++ "k" := by
  obtain ⟨d, l, hh, hd⟩ := natToString_data n
  refine (ne_fc_of_head _ (digitChar d) (l ++ ['k']) ?_ (digitChar_ne_dash d hd)).symm
  rw [String.data_append, hh]
  rfl

theorem fc_ne_scale (n : ℕ) :
    ("-filter_complex" : String) ≠ "scale=-2:" ++ natToString n := by
  refine (ne_fc_of_head _ 's' ("cale=-2:".data ++ (natToString n).data) ?_ (by decide)).symm
  rw [String.data_append]
  rfl

theorem fc_ne_displayQ (q : ℚ) : ("-filter_complex" : String) ≠ displayQ q := by
  obtain ⟨d, l, hh, hd⟩ := natToString_data (|q|).floor.toNat
  refine fun he => ?_
  revert he
  refine Ne.symm ?_
  simp only [displayQ]
  generalize (if |q| - (((|q|).floor : ℤ) : ℚ) = 0 then ""
    else "." ++ String.mk (fracDigitsAux 99 (|q| - (((|q|).floor : ℤ) : ℚ)))) = T
  by_cases hq : q < 0
  · rw [if_pos hq]
    refine ne_fc_of_second _ (digitChar d) (l ++ T.data) ?_ (digitChar_ne_f d hd)
    rw [String.data_append, String.data_append, hh]
    rfl
  · rw [if_neg hq]
    refine ne_fc_of_head _ (digitChar d) (l ++ T.data) ?_ (digitChar_ne_dash d hd)
    rw [String.data_append, String.data_append, hh]
    rfl

theorem fc_ne_presetName (c : CompressionPreset) :
    ("-filter_complex" : String) ≠ c.presetName := by
  cases c <;> decide

theorem fc_ne_fps (a b : String) :
    ("-filter_complex" : String) ≠ "fps=" ++ a ++ ",scale=-1:" ++ b ++
      ":flags=lanczos,split[s0][s1];[s0]palettegen=stats_mode=diff[p];[s1][p]paletteuse=dither=bayer:bayer_scale=5:diff_mode=rectangle" := by
  refine (ne_fc_of_head _ 'f'
    ("ps=".data ++ a.data ++ ",scale=-1:".data ++ b.data ++
      ":flags=lanczos,split[s0][s1];[s0]palettegen=stats_mode=diff[p];[s1][p]paletteuse=dither=bayer:bayer_scale=5:diff_mode=rectangle".data)
    ?_ (by decide)).symm
  rw [String.data_append, String.data_append, String.data_append, String.data_append]
  rfl

/-- The C2 counterexample scenario: one enabled segment `[0.0005, 20]` of a
20-second source (a strict sub-range whose start is under the 1 ms
`timeline_is_edited` tolerance), no camera, no microphone, no effects - and
one annotation spanning the whole source. -/
def pC2 : Project :=
  ⟨"idC2", "c2", "screen.mp4", none, none, none, none, 20, ⟨1920, 1080⟩,
    ⟨[⟨"s", 1/2000, 20, true⟩], [], [],
      [⟨"a", 0, 20, 0, 0, 1, 1, "red", 1, 2, none, AnnotMode.outline⟩],
      camDefault, mixDefault, ccDefault⟩⟩

theorem pC2_segments_eval : enabled_segments pC2 = [((1/2000 : ℚ), (20 : ℚ))] := by
  norm_num [enabled_segments, pC2, List.insertionSort, List.orderedInsert]

theorem pC2_pieces_eval : build_timeline_pieces pC2 = [⟨1/2000, 20, 1, none⟩] := by
  rw [build_timeline_pieces, pC2_segments_eval]
  norm_num [segment_pieces, segment_breakpoints, pC2, List.insertionSort, List.orderedInsert,
    dedupBy, dedupByGo, eps52, pairsOf, List.filterMap, piece_speed, piece_zoom, List.find?,
    List.flatMap, List.isEmpty, abs_lt]

theorem pC2_edited_eval : timeline_is_edited pC2 [⟨1/2000, 20, 1, none⟩] = false := by
  simp only [timeline_is_edited]
  rw [decide_eq_false (by norm_num : ¬((1:ℚ)/1000 < 1/2000)),
    decide_eq_false (by norm_num [pC2] : ¬((1:ℚ)/1000 < |(20 : ℚ) - pC2.duration|)),
    decide_eq_false (by norm_num : ¬((1:ℚ)/100 < |(1 : ℚ) - 1|))]
  rfl

theorem pC2_seek_eval : use_input_seeking pC2 = true := by
  rw [use_input_seeking, pC2_segments_eval, pC2_pieces_eval, pC2_edited_eval]
  simp [pC2]

/-- C2 counterexample: in `pC2` every fast-path criterion holds
(`use_input_seeking` is true) and the seek arguments are emitted, yet the
annotation still generates a filter graph: `-filter_complex` is in the
argument vector. -/
theorem claim2_counterexample :
    use_input_seeking pC2 = true ∧ pC2.edits.annotations ≠ [] ∧
    "-ss" ∈ build_ffmpeg_args pC2 optsC1 ("out.mp4") false envC1 ∧
    "-filter_complex" ∈ build_ffmpeg_args pC2 optsC1 ("out.mp4") false envC1 := by
  refine ⟨pC2_seek_eval, by simp [pC2], ?_, ?_⟩
  · simp only [build_ffmpeg_args, pC2_seek_eval]
    simp
  · simp only [build_ffmpeg_args, pC2_seek_eval, pC2_pieces_eval, pC2_edited_eval]
    norm_num [pC2, optsC1, envC1, mp4MovBranch, videoTimelineSection, cameraSection,
      apply_video_annotations, annotStep, audioSection, mp4MovCodecArgs, mp4AudioMapArgs,
      List.isEmpty]

/-- C2 (amended): when the fast-path criteria hold AND the project has no
annotations and the screen recording has no audio stream, the seek
arguments lead the argument vector and no `-filter_complex` token appears
(for any format, platform, and output path distinct from the token). -/
theorem claim2_fast_path (p : Project) (opts : ExportOptions) (out : String)
    (macos : Bool) (env : ProbeEnv) (s e : ℚ)
    (hcam : p.camera_video_path = none)
    (hmic : p.microphone_audio_path = none)
    (hseg : enabled_segments p = [(s, e)])
    (hsub : 0 < s ∨ e < p.duration)
    (hedit : timeline_is_edited p (build_timeline_pieces p) = false)
    (hzoom : p.edits.zoom = [])
    (hannot : p.edits.annotations = [])
    (haudio : env.hasAudioStream p.screen_video_path = false)
    (hpath : p.screen_video_path ≠ "-filter_complex")
    (hout : out ≠ "-filter_complex") :
    (∃ rest, build_ffmpeg_args p opts out macos env =
      "-ss" :: displayQ s :: "-to" :: displayQ e :: "-i" :: p.screen_video_path :: rest) ∧
    "-filter_complex" ∉ build_ffmpeg_args p opts out macos env := by
  have hseek : use_input_seeking p = true := by
    rw [use_input_seeking, hseg, hedit]
    simp [hcam, hmic, hzoom]
    exact hsub
  have hchain : build_annotation_drawbox_chain p = "" := by
    simp [build_annotation_drawbox_chain, hannot, String.join]
  have hsw : (("" : String).startsWith (",")) = false := by decide
  constructor
  · simp only [build_ffmpeg_args, hseek, hseg, hcam, hmic, if_true]
    simp
  · intro hmem
    rcases opts with ⟨fmt, fr, comp, res⟩
    cases fmt <;> cases macos <;>
    · simp only [build_ffmpeg_args, hseek, hseg, hcam, hmic, hedit, haudio, hannot,
        mp4MovBranch, videoTimelineSection, cameraSection, apply_video_annotations,
        audioSection, mp4MovCodecArgs, mp4AudioMapArgs, gifBranch, wavMp3Branch,
        hchain, hsw, emptyString] at hmem
      simp [fc_ne_natToString, fc_ne_natToString_k, fc_ne_scale, fc_ne_displayQ,
        fc_ne_presetName, fc_ne_fps, Ne.symm hpath, Ne.symm hout, List.isEmpty] at hmem

/-- Witness project for the amended C2: `pC2` without the annotation. -/
def pW2 : Project :=
  ⟨"idW2", "w2", "screen.mp4", none, none, none, none, 20, ⟨1920, 1080⟩,
    ⟨[⟨"s", 1/2000, 20, true⟩], [], [], [], camDefault, mixDefault, ccDefault⟩⟩

theorem pW2_segments_eval : enabled_segments pW2 = [((1/2000 : ℚ), (20 : ℚ))] := by
  norm_num [enabled_segments, pW2, List.insertionSort, List.orderedInsert]

theorem pW2_pieces_eval : build_timeline_pieces pW2 = [⟨1/2000, 20, 1, none⟩] := by
  rw [build_timeline_pieces, pW2_segments_eval]
  norm_num [segment_pieces, segment_breakpoints, pW2, List.insertionSort, List.orderedInsert,
    dedupBy, dedupByGo, eps52, pairsOf, List.filterMap, piece_speed, piece_zoom, List.find?,
    List.flatMap, List.isEmpty, abs_lt]

theorem pW2_edited_eval : timeline_is_edited pW2 [⟨1/2000, 20, 1, none⟩] = false := by
  simp only [timeline_is_edited]
  rw [decide_eq_false (by norm_num : ¬((1:ℚ)/1000 < 1/2000)),
    decide_eq_false (by norm_num [pW2] : ¬((1:ℚ)/1000 < |(20 : ℚ) - pW2.duration|)),
    decide_eq_false (by norm_num : ¬((1:ℚ)/100 < |(1 : ℚ) - 1|))]
  rfl

/-- Witness for the amended C2 at `pW2`. -/
theorem claim2_fast_path_witness :
    (∃ rest, build_ffmpeg_args pW2 optsC1 ("out.mp4") false envC1 =
      "-ss" :: displayQ (1/2000) :: "-to" :: displayQ 20 :: "-i" ::
        pW2.screen_video_path :: rest) ∧
    "-filter_complex" ∉ build_ffmpeg_args pW2 optsC1 ("out.mp4") false envC1 :=
  claim2_fast_path pW2 optsC1 ("out.mp4") false envC1 (1/2000) 20
    rfl rfl pW2_segments_eval (Or.inl (by norm_num))
    (by rw [pW2_pieces_eval]; exact pW2_edited_eval) rfl rfl rfl
    (by decide) (by decide)
